import Mathlib

/-!
# Frame: tool resolution and project scaffolding

A shallow embedding of `src/main/aiToolManager.js` and `src/main/frameProject.js`.

* The Node `path` module is a parameter (`PathLib`); `posixPath` is an executable POSIX
  instance used for concrete runs.  General theorems hold for every path library.
* The filesystem is a map from resolved path strings to nodes (regular file, directory,
  symbolic link).  Every filesystem call resolves its path argument against the working
  directory with `path.resolve`, as the operating system does, so a relative and an absolute
  string for one place name the same entry.  `existsSync`, `readFileSync`, `writeFileSync` and
  `copyFileSync` follow symbolic links at the final component; `lstatSync`, `unlinkSync` and
  `symlinkSync` do not.  A new entry needs its parent directory (`ENOENT` without it), and a
  file created by `writeFileSync` gets its mode cut by the process umask.  Links in the middle
  of a path are not followed, and no other I/O fault is modelled.
* `symlinkSync` reports an occupied path (`EEXIST`) and a missing parent (`ENOENT`) before the
  platform's refusal to create links.  A property read `obj[key]` sees the members inherited
  from `Object.prototype`.
* Thrown JavaScript errors are values of `JsError`; a function that can throw returns
  `Except JsError α` together with the filesystem it leaves behind.
* `shared/frameTemplates` is taken as it is exported: it has no `getAgentsTemplate` and no
  `getWrapperScriptTemplate`, so the calls to them throw a `TypeError`.
-/

namespace Frame

/-! ## Errors -/

/-- A thrown JavaScript error: a system error carries `error.code`; a plain `Error` and a
`TypeError` carry only a message. -/
inductive JsError where
  | sys (code : String)
  | plain (message : String)
  | typeError (message : String)
deriving DecidableEq, Repr

deriving instance DecidableEq for Except

/-- The `error.code` property (`undefined` for a plain `Error`). -/
def JsError.code : JsError → Option String
  | .sys c => some c
  | .plain _ => none
  | .typeError _ => none

/-! ## The `path` module -/

/-- The functions of Node's `path` module that the sources call. -/
structure PathLib where
  join : List String → String
  dirname : String → String
  basename : String → String
  resolve : List String → String

/-- Split a character list at every slash. -/
def splitSlash : List Char → List (List Char)
  | [] => [[]]
  | c :: cs =>
    match splitSlash cs with
    | [] => if c = '/' then [[], []] else [[c]]
    | seg :: rest => if c = '/' then [] :: seg :: rest else (c :: seg) :: rest

/-- Node's `normalizeString`: resolve `.` and `..` segments; `acc` holds the kept segments, last first. -/
def normalizeSegs (allowAboveRoot : Bool) : List (List Char) → List (List Char) → List (List Char)
  | [], acc => acc.reverse
  | seg :: rest, acc =>
    if seg = [] ∨ seg = ['.'] then normalizeSegs allowAboveRoot rest acc
    else if seg = ['.', '.'] then
      match acc with
      | [] => normalizeSegs allowAboveRoot rest (if allowAboveRoot then [seg] else [])
      | top :: below =>
        if top = ['.', '.'] then
          normalizeSegs allowAboveRoot rest (if allowAboveRoot then seg :: acc else acc)
        else normalizeSegs allowAboveRoot rest below
    else normalizeSegs allowAboveRoot rest (seg :: acc)

/-- Join segments with single slashes. -/
def joinSlash : List (List Char) → List Char
  | [] => []
  | [s] => s
  | s :: rest => s ++ '/' :: joinSlash rest

/-- POSIX `path.normalize` on character lists. -/
def posixNormalize (cs : List Char) : List Char :=
  match cs with
  | [] => ['.']
  | c :: _ =>
    let isAbs := decide (c = '/')
    let trailing := decide (cs.getLast? = some '/')
    let body := joinSlash (normalizeSegs (!isAbs) (splitSlash cs) [])
    match body with
    | [] => if isAbs then ['/'] else if trailing then ['.', '/'] else ['.']
    | _ :: _ =>
      let body := if trailing then body ++ ['/'] else body
      if isAbs then '/' :: body else body

/-- POSIX `path.join`. -/
def posixJoin (parts : List String) : String :=
  match (parts.map String.data).filter (fun p => p ≠ []) with
  | [] => "."
  | ps => String.mk (posixNormalize (joinSlash ps))

/-- POSIX `path.dirname`. -/
def posixDirname (p : String) : String :=
  match p.data with
  | [] => "."
  | c :: tl =>
    let r := (tl.reverse.dropWhile (fun x => x = '/')).dropWhile (fun x => x ≠ '/')
    match r with
    | [] => if c = '/' then "/" else "."
    | _ :: rest =>
      if c = '/' ∧ rest = [] then "//" else String.mk (c :: rest.reverse)

/-- POSIX `path.basename` (one argument). -/
def posixBasename (p : String) : String :=
  String.mk ((p.data.reverse.dropWhile (fun x => x = '/')).takeWhile (fun x => x ≠ '/')).reverse

/-- The arguments of `path.resolve` that count, read from the right: everything from the last
absolute argument on; the flag tells whether an absolute argument was met. -/
def fromLastAbsolute : List (List Char) → List (List Char) × Bool
  | [] => ([], false)
  | p :: rest =>
    match fromLastAbsolute rest with
    | (kept, true) => (kept, true)
    | (kept, false) => (p :: kept, decide (p.head? = some '/'))

/-- POSIX `path.resolve` against the working directory `cwd`: empty arguments are skipped, the
working directory is put in front when no argument is absolute, and the result is normalised
without a trailing slash. -/
def posixResolve (cwd : String) (parts : List String) : String :=
  let args := (parts.map String.data).filter (fun p => p ≠ [])
  let pick : List (List Char) :=
    match fromLastAbsolute args with
    | (kept, true) => kept
    | (kept, false) => cwd.data :: kept
  let joined := joinSlash (pick.filter (fun p => p ≠ []))
  let isAbs := decide (joined.head? = some '/')
  let body := joinSlash (normalizeSegs (!isAbs) (splitSlash joined) [])
  if isAbs then String.mk ('/' :: body)
  else if body = [] then "." else String.mk body

/-- The POSIX path library with working directory `cwd`. -/
def posixPath (cwd : String) : PathLib where
  join := posixJoin
  dirname := posixDirname
  basename := posixBasename
  resolve := posixResolve cwd

/-! ## Filesystem -/

/-- A filesystem entry as `lstat` sees it. -/
inductive Node where
  | file (content : String) (mode : Nat)
  | dir
  | symlink (target : String)
deriving DecidableEq, Repr

/-- The filesystem: the entry stored at each path, if any. -/
abbrev FS := String → Option Node

/-- The empty filesystem. -/
def FS.empty : FS := fun _ => none

/-- Store (or with `none`, remove) the entry at `p`. -/
def FS.set (fs : FS) (p : String) (n : Option Node) : FS :=
  fun q => if q = p then n else fs q

/-- Number of path lookups a symbolic-link walk may make (40 links, then the final entry). -/
def linkFuel : Nat := 41

/-- Follow symbolic links from the resolved path `p`; the result is the first path that holds no
link (it may hold nothing at all), or `none` when the walk is too long (`ELOOP`).  A link's
target is resolved against the directory of the link. -/
def follow (lib : PathLib) (fs : FS) : Nat → String → Option String
  | 0, _ => none
  | n + 1, p =>
    match fs p with
    | some (.symlink t) => follow lib fs n (lib.resolve [lib.dirname p, t])
    | _ => some p

/-- Why no entry can be created at the resolved path `k`, if so: its parent is not a directory. -/
def parentError (lib : PathLib) (fs : FS) (k : String) : Option JsError :=
  match follow lib fs linkFuel (lib.dirname k) with
  | none => some (.sys "ELOOP")
  | some d =>
    match fs d with
    | some .dir => none
    | some _ => some (.sys "ENOTDIR")
    | none => some (.sys "ENOENT")

/-- The permission bits a new file gets: `mode & ~umask`. -/
def applyUmask (umask mode : Nat) : Nat :=
  mode - (mode &&& umask)

/-- The `fs.existsSync` function: true iff the path, links followed, leads to an entry. -/
def existsSync (lib : PathLib) (fs : FS) (p : String) : Bool :=
  match follow lib fs linkFuel (lib.resolve [p]) with
  | some r => (fs r).isSome
  | none => false

/-- The `fs.lstatSync(p).isSymbolicLink()` call. -/
def lstatIsSymbolicLink (lib : PathLib) (fs : FS) (p : String) : Except JsError Bool :=
  match fs (lib.resolve [p]) with
  | none => .error (.sys "ENOENT")
  | some (.symlink _) => .ok true
  | some _ => .ok false

/-- The `fs.readFileSync(p, 'utf8')` call. -/
def readFileSync (lib : PathLib) (fs : FS) (p : String) : Except JsError String :=
  match follow lib fs linkFuel (lib.resolve [p]) with
  | none => .error (.sys "ELOOP")
  | some r =>
    match fs r with
    | some (.file c _) => .ok c
    | some .dir => .error (.sys "EISDIR")
    | some (.symlink _) => .error (.sys "ELOOP")
    | none => .error (.sys "ENOENT")

/-- Store a file through `p`, links followed: an existing file gets the content and keeps its
mode, a new file gets `mode` as it is and needs its parent directory. -/
def storeFile (lib : PathLib) (fs : FS) (p content : String) (mode : Nat) : Except JsError FS :=
  match follow lib fs linkFuel (lib.resolve [p]) with
  | none => .error (.sys "ELOOP")
  | some r =>
    match fs r with
    | some (.file _ m) => .ok (fs.set r (some (.file content m)))
    | some .dir => .error (.sys "EISDIR")
    | some (.symlink _) => .error (.sys "ELOOP")
    | none =>
      match parentError lib fs r with
      | some e => .error e
      | none => .ok (fs.set r (some (.file content mode)))

/-- The `fs.writeFileSync(p, content, mode)` call: creates the file with `mode & ~umask`, or
replaces the content of an existing file (keeping its mode). -/
def writeFileSync (lib : PathLib) (umask : Nat) (fs : FS) (p content : String) (mode : Nat) :
    Except JsError FS :=
  storeFile lib fs p content (applyUmask umask mode)

/-- Create the directory at the resolved path `k` and the missing directories above it; `leaf`
tells whether `k` is the path that was asked for.  The fuel bounds the number of ancestors. -/
def mkdirAt (lib : PathLib) (fs : FS) : Nat → Bool → String → Except JsError FS
  | 0, _, _ => .error (.sys "ENAMETOOLONG")
  | n + 1, leaf, k =>
    match fs k with
    | some .dir => .ok fs
    | some (.file _ _) => .error (.sys (if leaf then "EEXIST" else "ENOTDIR"))
    | some (.symlink _) =>
      match follow lib fs linkFuel k with
      | some r =>
        if fs r = some .dir then .ok fs else .error (.sys (if leaf then "EEXIST" else "ENOTDIR"))
      | none => .error (.sys "ELOOP")
    | none =>
      if lib.dirname k = k then .ok (fs.set k (some .dir))
      else
        match mkdirAt lib fs n false (lib.dirname k) with
        | .ok fs1 => .ok (fs1.set k (some .dir))
        | .error e => .error e

/-- The `fs.mkdirSync(p, { recursive: true })` call. -/
def mkdirSync (lib : PathLib) (fs : FS) (p : String) : Except JsError FS :=
  mkdirAt lib fs ((lib.resolve [p]).length + 1) true (lib.resolve [p])

/-- The `fs.unlinkSync(p)` call. -/
def unlinkSync (lib : PathLib) (fs : FS) (p : String) : Except JsError FS :=
  match fs (lib.resolve [p]) with
  | none => .error (.sys "ENOENT")
  | some .dir => .error (.sys "EISDIR")
  | some _ => .ok (fs.set (lib.resolve [p]) none)

/-- The `fs.symlinkSync(target, p)` call.  `symlinkError` is the error code with which the
platform refuses to create symbolic links, if it does. -/
def symlinkSync (lib : PathLib) (symlinkError : Option String) (fs : FS) (target p : String) :
    Except JsError FS :=
  match fs (lib.resolve [p]) with
  | some _ => .error (.sys "EEXIST")
  | none =>
    match parentError lib fs (lib.resolve [p]) with
    | some e => .error e
    | none =>
      match symlinkError with
      | some code => .error (.sys code)
      | none => .ok (fs.set (lib.resolve [p]) (some (.symlink target)))

/-- The `fs.copyFileSync(src, dest)` call: a new destination takes the source's mode. -/
def copyFileSync (lib : PathLib) (fs : FS) (src dest : String) : Except JsError FS :=
  match follow lib fs linkFuel (lib.resolve [src]) with
  | none => .error (.sys "ELOOP")
  | some s =>
    match fs s with
    | some (.file c m) => storeFile lib fs dest c m
    | some .dir => .error (.sys "EISDIR")
    | some (.symlink _) => .error (.sys "ELOOP")
    | none => .error (.sys "ENOENT")

/-! ## JavaScript values used by the sources -/

/-- JSON values (numbers are kept as integers: only their truthiness is ever inspected). -/
inductive Json where
  | null
  | bool (b : Bool)
  | num (n : Int)
  | str (s : String)
  | arr (items : List Json)
  | obj (fields : List (String × Json))

/-- JavaScript truthiness of a JSON value. -/
def Json.truthy : Json → Bool
  | .null => false
  | .bool b => b
  | .num n => decide (n ≠ 0)
  | .str s => decide (s ≠ "")
  | .arr _ => true
  | .obj _ => true

/-- First value stored under `k` in a field list. -/
def lookupField {α : Type} (k : String) : List (String × α) → Option α
  | [] => none
  | (k1, v) :: rest => if k1 = k then some v else lookupField k rest

/-- The expression `config?.name`: `none` is `undefined`. -/
def optName : Option Json → Option Json
  | some (.obj fields) => lookupField "name" fields
  | _ => none

/-- A string that may be `undefined`, kept only when truthy (defined and non-empty). -/
def truthyString : Option String → Option String
  | some s => if s = "" then none else some s
  | none => none

/-! ## Tool descriptors and the registry (`aiToolManager.js`) -/

/-- One entry of a descriptor's `commands` map. -/
structure ToolCommand where
  cmd : String
  label : String
deriving DecidableEq, Repr

/-- A tool descriptor. -/
structure Tool where
  id : String
  name : String
  command : String
  description : String
  commands : List (String × ToolCommand)
  menuLabel : String
  supportsPlugins : Bool
  needsWrapper : Bool
  wrapperName : Option String
deriving DecidableEq, Repr

/-- A JavaScript object with tool descriptors as values: its own properties, in property order. -/
abbrev ToolObj := List (String × Tool)

/-- Value of a decimal digit character. -/
def digitValue (c : Char) : Option Nat :=
  if c = '0' then some 0 else if c = '1' then some 1 else if c = '2' then some 2
  else if c = '3' then some 3 else if c = '4' then some 4 else if c = '5' then some 5
  else if c = '6' then some 6 else if c = '7' then some 7 else if c = '8' then some 8
  else if c = '9' then some 9 else none

/-- Read a digit list as a number, most significant digit first. -/
def digitsValue : List Char → Nat → Option Nat
  | [], acc => some acc
  | c :: cs, acc =>
    match digitValue c with
    | some d => digitsValue cs (acc * 10 + d)
    | none => none

/-- The array index a property key denotes, if it is a canonical numeric string below `2^32 - 1`;
such keys come first, in ascending order, in a JavaScript object. -/
def arrayIndex (k : String) : Option Nat :=
  match k.data with
  | [] => none
  | c :: cs =>
    if c = '0' ∧ cs ≠ [] then none
    else
      match digitsValue (c :: cs) 0 with
      | some n => if n < 4294967295 then some n else none
      | none => none

/-- Insert a new integer-like key at its place among the leading integer-like keys. -/
def insertIndexKey (n : Nat) (k : String) (v : Tool) : ToolObj → ToolObj
  | [] => [(k, v)]
  | (k1, v1) :: rest =>
    match arrayIndex k1 with
    | some n1 => if n1 < n then (k1, v1) :: insertIndexKey n k v rest else (k, v) :: (k1, v1) :: rest
    | none => (k, v) :: (k1, v1) :: rest

/-- Replace the value stored under an existing key, keeping the key's position. -/
def replaceKey (k : String) (v : Tool) : ToolObj → ToolObj
  | [] => []
  | (k1, v1) :: rest => if k1 = k then (k1, v) :: rest else (k1, v1) :: replaceKey k v rest

/-- Define property `k` of an object: an existing key keeps its position, a new integer-like key
goes among the integer-like keys, any other new key goes last. -/
def defineProp (o : ToolObj) (kv : String × Tool) : ToolObj :=
  match lookupField kv.1 o with
  | some _ => replaceKey kv.1 kv.2 o
  | none =>
    match arrayIndex kv.1 with
    | some n => insertIndexKey n kv.1 kv.2 o
    | none => o ++ [kv]

/-- Object spread `{ ...base, ...extra }` where `extra` lists an object's entries. -/
def spreadInto (base : ToolObj) (extra : List (String × Tool)) : ToolObj :=
  extra.foldl defineProp base

/-- Property names every plain object inherits from `Object.prototype`. -/
def objectPrototypeKeys : List String :=
  ["constructor", "__defineGetter__", "__defineSetter__", "hasOwnProperty", "__lookupGetter__",
   "__lookupSetter__", "isPrototypeOf", "propertyIsEnumerable", "toString", "valueOf",
   "__proto__", "toLocaleString"]

/-- Result of the property read `tools[key]`. -/
inductive JsProp where
  | own (t : Tool)
  | inherited (key : String)
  | undefined
deriving DecidableEq, Repr

/-- The property read `o[k]` on a plain object: an own property, else a member inherited from
`Object.prototype`, else `undefined`. -/
def getProp (o : ToolObj) (k : String) : JsProp :=
  match lookupField k o with
  | some t => .own t
  | none => if k ∈ objectPrototypeKeys then .inherited k else .undefined

/-- JavaScript truthiness: descriptors and inherited members are objects or functions. -/
def JsProp.truthy : JsProp → Bool
  | .own _ => true
  | .inherited _ => true
  | .undefined => false

/-- The expression `a || b`. -/
def JsProp.orElse (a b : JsProp) : JsProp :=
  if a.truthy then a else b

/-- The property read `tool.needsWrapper`, as a condition. -/
def JsProp.needsWrapper : JsProp → Bool
  | .own t => t.needsWrapper
  | _ => false

/-- The property read `tool.command` (`none` is `undefined`). -/
def JsProp.command : JsProp → Option String
  | .own t => some t.command
  | _ => none

/-- The property read `tool.wrapperName`. -/
def JsProp.wrapperName : JsProp → Option String
  | .own t => t.wrapperName
  | _ => none

/-- The built-in table `AI_TOOLS`. -/
def AI_TOOLS : ToolObj :=
  [("claude",
    { id := "claude", name := "Claude Code", command := "claude",
      description := "Anthropic Claude Code CLI",
      commands := [("init", ⟨"/init", "Initialize Project"⟩), ("commit", ⟨"/commit", "Commit Changes"⟩),
                   ("review", ⟨"/review-pr", "Review"⟩), ("help", ⟨"/help", "Help"⟩)],
      menuLabel := "Claude Commands", supportsPlugins := true,
      needsWrapper := false, wrapperName := none }),
   ("codex",
    { id := "codex", name := "Codex CLI", command := "codex",
      description := "OpenAI Codex CLI",
      commands := [("review", ⟨"/review", "Review"⟩), ("model", ⟨"/model", "Switch Model"⟩),
                   ("permissions", ⟨"/permissions", "Permissions"⟩), ("help", ⟨"/help", "Help"⟩)],
      menuLabel := "Codex Commands", supportsPlugins := false,
      needsWrapper := true, wrapperName := some "codex" })]

/-- The module variable `config`; `customTools` lists the entries of the persisted mapping. -/
structure ToolConfig where
  activeTool : String
  customTools : List (String × Tool)
deriving DecidableEq, Repr

/-- Initial value of `config`. -/
def defaultToolConfig : ToolConfig :=
  { activeTool := "claude", customTools := [] }

/-- State of the module variable `mainWindow`. -/
inductive Window where
  | absent
  | destroyed
  | live
deriving DecidableEq, Repr

/-- An effect of the tool manager on the world around it. -/
inductive Effect where
  | wrote (path content : String)
  | logged (message : String) (error : JsError)
  | sent (payload : JsProp)
deriving DecidableEq, Repr

/-- Module state of `aiToolManager.js`; `effects` lists, oldest first, what the module has done
to the world: each `fs.writeFileSync` that returned, each `console.error`, and each payload sent
on the tool-changed channel. -/
structure Manager where
  config : ToolConfig
  configPath : Option String
  mainWindow : Window
  effects : List Effect
deriving DecidableEq, Repr

/-- The payloads sent on the tool-changed channel, oldest first. -/
def Manager.sent (m : Manager) : List JsProp :=
  m.effects.filterMap fun e =>
    match e with
    | .sent payload => some payload
    | _ => none

/-- Names from `shared/frameConstants` (not part of the sources at hand). -/
structure FrameConstants where
  FRAME_DIR : String
  FRAME_CONFIG_FILE : String
  FRAME_BIN_DIR : String
  AGENTS : String
  CLAUDE_SYMLINK : String
  STRUCTURE : String
  NOTES : String
  TASKS : String
  QUICKSTART : String

/-- Modelled from the spec: the values of `shared/frameConstants`, which is not among the
sources; they are the names the sources print for these entries. -/
def frameConstants : FrameConstants where
  FRAME_DIR := ".frame"
  FRAME_CONFIG_FILE := "config.json"
  FRAME_BIN_DIR := "bin"
  AGENTS := "AGENTS.md"
  CLAUDE_SYMLINK := "CLAUDE.md"
  STRUCTURE := "STRUCTURE.json"
  NOTES := "PROJECT_NOTES.md"
  TASKS := "tasks.json"
  QUICKSTART := "QUICKSTART.md"

/-- What the code takes from its surroundings: the path library, the shared constants, the
error code with which the platform refuses symbolic links (if it does), the process umask, and
`JSON`. -/
structure Env where
  path : PathLib
  consts : FrameConstants
  symlinkError : Option String
  umask : Nat
  jsonParse : String → Option Json
  jsonStringify : Json → String
  stringifyConfig : ToolConfig → String

/-- The function `saveConfig`: a failed write is logged and swallowed.  While `configPath` is
still `null` the write throws for its argument. -/
def saveConfig (env : Env) (m : Manager) (fs : FS) : Manager × FS :=
  match m.configPath with
  | none =>
    ({ m with effects := m.effects ++
        [.logged "Error saving AI tool config:" (.sys "ERR_INVALID_ARG_TYPE")] }, fs)
  | some p =>
    match writeFileSync env.path env.umask fs p (env.stringifyConfig m.config) 438 with
    | .ok fs1 =>
      ({ m with effects := m.effects ++ [.wrote p (env.stringifyConfig m.config)] }, fs1)
    | .error e =>
      ({ m with effects := m.effects ++ [.logged "Error saving AI tool config:" e] }, fs)

/-- The function `getAvailableTools`. -/
def getAvailableTools (cfg : ToolConfig) : ToolObj :=
  spreadInto AI_TOOLS (spreadInto [] cfg.customTools)

/-- The function `getActiveTool`. -/
def getActiveTool (cfg : ToolConfig) : JsProp :=
  let tools := getAvailableTools cfg
  (getProp tools cfg.activeTool).orElse (getProp tools "claude")

/-- The function `setActiveTool`: result, new module state, new filesystem.  The notification is
recorded in `effects`; whether the window can serialise the payload is not modelled. -/
def setActiveTool (env : Env) (toolId : String) (m : Manager) (fs : FS) : Bool × Manager × FS :=
  let tools := getAvailableTools m.config
  if (getProp tools toolId).truthy then
    let m1 := { m with config := { m.config with activeTool := toolId } }
    let saved := saveConfig env m1 fs
    let m2 := saved.1
    let m3 :=
      if m2.mainWindow = .live then
        { m2 with effects := m2.effects ++ [.sent (getActiveTool m2.config)] }
      else m2
    (true, m3, saved.2)
  else (false, m, fs)

/-- The function `getToolsRequiringWrapper`. -/
def getToolsRequiringWrapper (cfg : ToolConfig) : List Tool :=
  ((getAvailableTools cfg).map Prod.snd).filter (fun tool => tool.needsWrapper)

/-- The expression `tool.wrapperName || tool.command` on a descriptor. -/
def wrapperFileName (t : Tool) : String :=
  match truthyString t.wrapperName with
  | some w => w
  | none => t.command

/-- The function `getExecutableCommand`; `none` is `undefined`. -/
def getExecutableCommand (env : Env) (cfg : ToolConfig) (fs : FS) (toolId : String)
    (projectPath : Option String) : Option String :=
  let tools := getAvailableTools cfg
  let tool := (getProp tools toolId).orElse (getProp tools "claude")
  if !tool.needsWrapper then tool.command
  else
    match truthyString projectPath with
    | some pp =>
      match (match truthyString tool.wrapperName with | some w => some w | none => tool.command) with
      | some name =>
        let wrapperPath := env.path.join [pp, env.consts.FRAME_DIR, env.consts.FRAME_BIN_DIR, name]
        if existsSync env.path fs wrapperPath then some wrapperPath else tool.command
      | none => tool.command
    | none => tool.command

/-! ## Project scaffolding (`frameProject.js`) -/

/-- What a template function returns: a string, or an object to be stringified. -/
inductive Content where
  | str (s : String)
  | obj (j : Json)

/-- The module `shared/frameTemplates`, with exactly the six functions it exports; the template
bodies are data, taken as given.  Every template receives the project name as a JavaScript
value. -/
structure Templates where
  getClaudeTemplate : Json → Content
  getStructureTemplate : Json → Content
  getNotesTemplate : Json → Content
  getTasksTemplate : Json → Content
  getQuickstartTemplate : Json → Content
  getFrameConfigTemplate : Json → Json

/-- The error of calling a member that `shared/frameTemplates` does not export: the property
read gives `undefined`, and calling it throws a `TypeError`. -/
def notAFunction (member : String) : JsError :=
  .typeError ("templates." ++ member ++ " is not a function")

/-- The call `templates.getAgentsTemplate(name)`: the module exports no such function. -/
def getAgentsTemplateCall (_tpl : Templates) (_name : Json) : Except JsError Content :=
  .error (notAFunction "getAgentsTemplate")

/-- The call `templates.getWrapperScriptTemplate(command, name)`: the module exports no such
function. -/
def getWrapperScriptTemplateCall (_tpl : Templates) (_command _name : String) :
    Except JsError String :=
  .error (notAFunction "getWrapperScriptTemplate")

/-- The expression `typeof content === 'string' ? content : JSON.stringify(content, null, 2)`. -/
def contentStr (env : Env) : Content → String
  | .str s => s
  | .obj j => env.jsonStringify j

/-- Sequencing of two steps that may throw: the filesystem reached so far is kept on a throw. -/
def andThen {α β : Type} (r : Except JsError α × FS)
    (k : α → FS → Except JsError β × FS) : Except JsError β × FS :=
  match r with
  | (.ok a, fs) => k a fs
  | (.error e, fs) => (.error e, fs)

/-- Lift a filesystem call into a step. -/
def step (r : Except JsError FS) (fs : FS) : Except JsError Unit × FS :=
  match r with
  | .ok fs1 => (.ok (), fs1)
  | .error e => (.error e, fs)

/-- Path of the hidden directory's config file. -/
def configFilePath (env : Env) (projectPath : String) : String :=
  env.path.join [projectPath, env.consts.FRAME_DIR, env.consts.FRAME_CONFIG_FILE]

/-- The function `isFrameProject`. -/
def isFrameProject (env : Env) (fs : FS) (projectPath : String) : Bool :=
  existsSync env.path fs (configFilePath env projectPath)

/-- The function `getFrameConfig`; `none` is `null`. -/
def getFrameConfig (env : Env) (fs : FS) (projectPath : String) : Option Json :=
  match readFileSync env.path fs (configFilePath env projectPath) with
  | .ok data => env.jsonParse data
  | .error _ => none

/-- The function `createFileIfNotExists`. -/
def createFileIfNotExists (env : Env) (filePath : String) (content : Content) (fs : FS) :
    Except JsError Bool × FS :=
  if !existsSync env.path fs filePath then
    andThen (step (writeFileSync env.path env.umask fs filePath (contentStr env content) 438) fs)
      (fun _ fs1 => (.ok true, fs1))
  else (.ok false, fs)

/-- The `try` block of `createSymlinkSafe`: its value, or the error it throws. -/
def symlinkAttempt (env : Env) (target linkPath : String) (fs : FS) : Except JsError Bool × FS :=
  let cleared : Except JsError (Option FS) :=
    if existsSync env.path fs linkPath then
      match lstatIsSymbolicLink env.path fs linkPath with
      | .error e => .error e
      | .ok true =>
        match unlinkSync env.path fs linkPath with
        | .ok fs1 => .ok (some fs1)
        | .error e => .error e
      | .ok false => .ok none
    else .ok (some fs)
  match cleared with
  | .error e => (.error e, fs)
  | .ok none => (.ok false, fs)
  | .ok (some fs1) =>
    andThen (step (symlinkSync env.path env.symlinkError fs1 target linkPath) fs1)
      (fun _ fs2 => (.ok true, fs2))

/-- The function `createSymlinkSafe`. -/
def createSymlinkSafe (env : Env) (target linkPath : String) (fs : FS) : Bool × FS :=
  match symlinkAttempt env target linkPath fs with
  | (.ok b, fs1) => (b, fs1)
  | (.error e, fs1) =>
    if e.code = some "EPERM" ∨ e.code = some "EPROTO" then
      let targetPath := env.path.resolve [env.path.dirname linkPath, target]
      if existsSync env.path fs1 targetPath then
        match copyFileSync env.path fs1 targetPath linkPath with
        | .ok fs2 => (true, fs2)
        | .error _ => (false, fs1)
      else (false, fs1)
    else (false, fs1)

/-- The two lists that `createWrapperScripts` and `upgradeFrameProject` return. -/
structure UpgradeResult where
  created : List String
  skipped : List String
deriving DecidableEq, Repr

/-- The `for` loop of `createWrapperScripts`. -/
def wrapperLoop (env : Env) (tpl : Templates) (binDirPath : String) :
    List Tool → List String → List String → FS → Except JsError UpgradeResult × FS
  | [], created, skipped, fs => (.ok ⟨created, skipped⟩, fs)
  | tool :: rest, created, skipped, fs =>
    let wrapperName := wrapperFileName tool
    let wrapperPath := env.path.join [binDirPath, wrapperName]
    if existsSync env.path fs wrapperPath then
      wrapperLoop env tpl binDirPath rest created (skipped ++ [".frame/bin/" ++ wrapperName]) fs
    else
      match getWrapperScriptTemplateCall tpl tool.command tool.name with
      | .error e => (.error e, fs)
      | .ok wrapperContent =>
        match writeFileSync env.path env.umask fs wrapperPath wrapperContent 493 with
        | .ok fs1 =>
          wrapperLoop env tpl binDirPath rest (created ++ [".frame/bin/" ++ wrapperName]) skipped
            fs1
        | .error e => (.error e, fs)

/-- The function `createWrapperScripts`. -/
def createWrapperScripts (env : Env) (tpl : Templates) (cfg : ToolConfig) (projectPath : String)
    (fs : FS) : Except JsError UpgradeResult × FS :=
  let binDirPath := env.path.join [projectPath, env.consts.FRAME_DIR, env.consts.FRAME_BIN_DIR]
  let toolsNeedingWrapper := getToolsRequiringWrapper cfg
  if toolsNeedingWrapper.length = 0 then (.ok ⟨[], []⟩, fs)
  else if !existsSync env.path fs binDirPath then
    andThen (step (mkdirSync env.path fs binDirPath) fs)
      (fun _ fs1 => wrapperLoop env tpl binDirPath toolsNeedingWrapper [".frame/bin/"] [] fs1)
  else wrapperLoop env tpl binDirPath toolsNeedingWrapper [] [] fs

/-- Outcome of `initializeFrameProject`: the returned config or the thrown error, the filesystem
left behind, and the calls made to `workspace.updateProjectFrameStatus`. -/
structure InitOutcome where
  result : Except JsError Json
  fs : FS
  frameStatus : List (String × Bool)

/-- The project name `initializeFrameProject` uses: `projectName || path.basename(projectPath)`. -/
def initializeName (env : Env) (projectPath : String) (projectName : Option String) : Json :=
  match truthyString projectName with
  | some n => .str n
  | none => .str (env.path.basename projectPath)

/-- The statements of `initializeFrameProject` before its `return`, in order, up to the first one
that throws; the arguments of a call are evaluated before the call. -/
def initializeBody (env : Env) (tpl : Templates) (cfg : ToolConfig) (projectPath : String)
    (name : Json) (fs : FS) : Except JsError Unit × FS :=
  let frameDirPath := env.path.join [projectPath, env.consts.FRAME_DIR]
  let config := tpl.getFrameConfigTemplate name
  andThen (if !existsSync env.path fs frameDirPath then step (mkdirSync env.path fs frameDirPath) fs
           else (.ok (), fs)) fun _ fs =>
  andThen (step (writeFileSync env.path env.umask fs
            (env.path.join [frameDirPath, env.consts.FRAME_CONFIG_FILE])
            (env.jsonStringify config) 438) fs) fun _ fs =>
  andThen (getAgentsTemplateCall tpl name, fs) fun agents fs =>
  andThen (createFileIfNotExists env (env.path.join [projectPath, env.consts.AGENTS])
            agents fs) fun _ fs =>
  andThen (.ok (), (createSymlinkSafe env env.consts.AGENTS
            (env.path.join [projectPath, env.consts.CLAUDE_SYMLINK]) fs).2) fun _ fs =>
  andThen (createFileIfNotExists env (env.path.join [projectPath, env.consts.STRUCTURE])
            (tpl.getStructureTemplate name) fs) fun _ fs =>
  andThen (createFileIfNotExists env (env.path.join [projectPath, env.consts.NOTES])
            (tpl.getNotesTemplate name) fs) fun _ fs =>
  andThen (createFileIfNotExists env (env.path.join [projectPath, env.consts.TASKS])
            (tpl.getTasksTemplate name) fs) fun _ fs =>
  andThen (createFileIfNotExists env (env.path.join [projectPath, env.consts.QUICKSTART])
            (tpl.getQuickstartTemplate name) fs) fun _ fs =>
  andThen (createWrapperScripts env tpl cfg projectPath fs) fun _ fs => (.ok (), fs)

/-- The function `initializeFrameProject`: after the filesystem calls it marks the project in the
workspace and returns the config object. -/
def initializeFrameProject (env : Env) (tpl : Templates) (cfg : ToolConfig) (projectPath : String)
    (projectName : Option String) (fs : FS) : InitOutcome :=
  let name := initializeName env projectPath projectName
  match initializeBody env tpl cfg projectPath name fs with
  | (.ok _, fs1) => ⟨.ok (tpl.getFrameConfigTemplate name), fs1, [(projectPath, true)]⟩
  | (.error e, fs1) => ⟨.error e, fs1, []⟩

/-- One entry of `filesToCreate` in `upgradeFrameProject`; `template` is what calling the
entry's template function gives. -/
structure RootFile where
  path : String
  template : Except JsError Content
  name : String

/-- The list `filesToCreate` of `upgradeFrameProject`. -/
def filesToCreate (env : Env) (tpl : Templates) (projectPath : String) (name : Json) : List RootFile :=
  [ ⟨env.path.join [projectPath, env.consts.AGENTS], getAgentsTemplateCall tpl name, "AGENTS.md"⟩,
    ⟨env.path.join [projectPath, env.consts.STRUCTURE], .ok (tpl.getStructureTemplate name),
      "STRUCTURE.json"⟩,
    ⟨env.path.join [projectPath, env.consts.NOTES], .ok (tpl.getNotesTemplate name),
      "PROJECT_NOTES.md"⟩,
    ⟨env.path.join [projectPath, env.consts.TASKS], .ok (tpl.getTasksTemplate name), "tasks.json"⟩,
    ⟨env.path.join [projectPath, env.consts.QUICKSTART], .ok (tpl.getQuickstartTemplate name),
      "QUICKSTART.md"⟩ ]

/-- The `for` loop over `filesToCreate` in `upgradeFrameProject`. -/
def rootFileLoop (env : Env) :
    List RootFile → List String → List String → FS → Except JsError UpgradeResult × FS
  | [], created, skipped, fs => (.ok ⟨created, skipped⟩, fs)
  | file :: rest, created, skipped, fs =>
    if existsSync env.path fs file.path then
      rootFileLoop env rest created (skipped ++ [file.name]) fs
    else
      match file.template with
      | .error e => (.error e, fs)
      | .ok content =>
        match writeFileSync env.path env.umask fs file.path (contentStr env content) 438 with
        | .ok fs1 => rootFileLoop env rest (created ++ [file.name]) skipped fs1
        | .error e => (.error e, fs)

/-- The project name `upgradeFrameProject` recovers: `config?.name || path.basename(projectPath)`. -/
def upgradeName (env : Env) (fs : FS) (projectPath : String) : Json :=
  match optName (getFrameConfig env fs projectPath) with
  | some n => if n.truthy then n else .str (env.path.basename projectPath)
  | none => .str (env.path.basename projectPath)

/-- The function `upgradeFrameProject`. -/
def upgradeFrameProject (env : Env) (tpl : Templates) (cfg : ToolConfig) (projectPath : String)
    (fs : FS) : Except JsError UpgradeResult × FS :=
  if !isFrameProject env fs projectPath then
    (.error (.plain "Not a Frame project. Use Initialize instead."), fs)
  else
    let name := upgradeName env fs projectPath
    andThen (createWrapperScripts env tpl cfg projectPath fs) fun wrapperResult fs =>
    andThen (rootFileLoop env (filesToCreate env tpl projectPath name)
              wrapperResult.created wrapperResult.skipped fs) fun r fs =>
    let symlinkPath := env.path.join [projectPath, env.consts.CLAUDE_SYMLINK]
    if !existsSync env.path fs symlinkPath then
      (.ok ⟨r.created ++ ["CLAUDE.md (symlink)"], r.skipped⟩,
        (createSymlinkSafe env env.consts.AGENTS symlinkPath fs).2)
    else (.ok ⟨r.created, r.skipped ++ ["CLAUDE.md"]⟩, fs)

/-- The names under which wrappers are reported. -/
def wrapperReports (cfg : ToolConfig) : List String :=
  (getToolsRequiringWrapper cfg).map (fun t => ".frame/bin/" ++ wrapperFileName t)

/-- Path of the bin directory of a project, as `createWrapperScripts` computes it. -/
def binDirPath (env : Env) (projectPath : String) : String :=
  env.path.join [projectPath, env.consts.FRAME_DIR, env.consts.FRAME_BIN_DIR]

/-- Path at which `createWrapperScripts` puts the wrapper of a tool. -/
def wrapperPathOf (env : Env) (projectPath : String) (t : Tool) : String :=
  env.path.join [binDirPath env projectPath, wrapperFileName t]

/-! ## A concrete world for running the code -/

/-- A stand-in for `JSON.stringify(value, null, 2)`: exact on the empty object and on an object
whose one member is a `name` without characters that JSON escapes. -/
def sampleStringify : Json → String
  | .obj [] => "\x7b\x7d"
  | .obj [("name", .str n)] => "\x7b\n  \"name\": \"" ++ n ++ "\"\n\x7d"
  | _ => "null"

/-- The JSON text of the config object `sampleTemplates` makes for the name `Demo`. -/
def demoConfigText : String :=
  "\x7b\n  \"name\": \"Demo\"\n\x7d"

/-- A stand-in for `JSON.stringify(config, null, 2)` on the tool manager's config: exact when
there are no custom tools and the active id has no characters that JSON escapes. -/
def sampleStringifyConfig (c : ToolConfig) : String :=
  "\x7b\n  \"activeTool\": \"" ++ c.activeTool ++ "\",\n  \"customTools\": \x7b\x7d\n\x7d"

/-- A POSIX machine with working directory `/` and umask `022`; `symErr` is the error with
which it refuses symbolic links, if any. -/
def posixEnv (symErr : Option String) : Env where
  path := posixPath "/"
  consts := frameConstants
  symlinkError := symErr
  umask := 18
  jsonParse := fun _ => none
  jsonStringify := sampleStringify
  stringifyConfig := sampleStringifyConfig

/-- Short bodies for the six exported template functions. -/
def sampleTemplates : Templates where
  getClaudeTemplate := fun _ => .str "claude"
  getStructureTemplate := fun _ => .obj (.obj [])
  getNotesTemplate := fun _ => .str "notes"
  getTasksTemplate := fun _ => .obj (.obj [])
  getQuickstartTemplate := fun _ => .str "quick"
  getFrameConfigTemplate := fun n => .obj [("name", n)]

/-- The filesystem holding exactly the listed entries. -/
def fsOfList (l : List (String × Node)) : FS :=
  fun q => lookupField q l

/-- A scaffolded project with the `codex` wrapper in place, whose `AGENTS.md` the user has
edited. -/
def editedProject : FS :=
  fsOfList [("/p", .dir), ("/p/.frame", .dir), ("/p/.frame/config.json", .file "user config" 420),
            ("/p/.frame/bin", .dir), ("/p/.frame/bin/codex", .file "exec codex" 493),
            ("/p/AGENTS.md", .file "my own instructions" 420)]

/-- A scaffolded project with the `codex` wrapper and `AGENTS.md` in place, whose `CLAUDE.md` is
a symbolic link to a file that is gone. -/
def danglingLinkProject : FS :=
  fsOfList [("/p", .dir), ("/p/.frame", .dir), ("/p/.frame/config.json", .file "user config" 420),
            ("/p/.frame/bin", .dir), ("/p/.frame/bin/codex", .file "exec codex" 493),
            ("/p/AGENTS.md", .file "agents" 420), ("/p/CLAUDE.md", .symlink "gone.md")]

/-- A project whose config path is a symbolic link to the user's `AGENTS.md`. -/
def linkedConfigProject : FS :=
  fsOfList [("/p", .dir), ("/p/.frame", .dir), ("/p/.frame/config.json", .symlink "../AGENTS.md"),
            ("/p/AGENTS.md", .file "my own instructions" 420)]

/-- A directory where `CLAUDE.md` links to the user's notes and `AGENTS.md` links to `CLAUDE.md`. -/
def reverseLinkProject : FS :=
  fsOfList [("/p", .dir), ("/p/notes.md", .file "N" 420), ("/p/CLAUDE.md", .symlink "notes.md"),
            ("/p/AGENTS.md", .symlink "CLAUDE.md")]

/-- A directory holding only `AGENTS.md`. -/
def agentsOnly : FS :=
  fsOfList [("/p", .dir), ("/p/AGENTS.md", .file "agents" 420)]

/-- Module state of the tool manager after `init`, once its window has been destroyed. -/
def detachedManager : Manager :=
  { config := defaultToolConfig, configPath := some "/u/ai-tool-config.json",
    mainWindow := .destroyed, effects := [] }

/-- A custom descriptor that needs a wrapper and names none. -/
def aiderTool : Tool :=
  { id := "aider", name := "Aider", command := "aider", description := "Aider CLI",
    commands := [("help", ⟨"/help", "Help"⟩)], menuLabel := "Aider Commands",
    supportsPlugins := false, needsWrapper := true, wrapperName := none }

/-- A persisted config with one custom tool under the id `aider`. -/
def aiderConfig : ToolConfig :=
  { activeTool := "claude", customTools := [("aider", aiderTool)] }

/-- A persisted config whose one custom tool is registered under the integer-like id `7`. -/
def indexKeyConfig : ToolConfig :=
  { activeTool := "claude", customTools := [("7", { aiderTool with id := "7" })] }

/-- Module state of the tool manager after `init`, with its window open. -/
def liveManager : Manager :=
  { config := defaultToolConfig, configPath := some "/u/ai-tool-config.json",
    mainWindow := .live, effects := [] }

/-- A user-data directory that holds no tool config yet. -/
def userData : FS :=
  fsOfList [("/u", .dir)]

/-- A user-data directory in which the tool config path is occupied by a directory, so that
writing the config file fails. -/
def blockedStore : FS :=
  fsOfList [("/u", .dir), ("/u/ai-tool-config.json", .dir)]

/-- A stand-in for `JSON.parse`, exact on the JSON text `demoConfigText` and on texts that are
no JSON at all. -/
def sampleParse (s : String) : Option Json :=
  if s = demoConfigText then some (.obj [("name", .str "Demo")]) else none

/-- The POSIX machine with `sampleParse` as its parser. -/
def parsingEnv : Env :=
  { posixEnv none with jsonParse := sampleParse }

/-- A project whose config file holds the text written for the name `Demo`. -/
def demoProject : FS :=
  fsOfList [("/p", .dir), ("/p/.frame", .dir), ("/p/.frame/config.json", .file demoConfigText 420)]

/-- A scaffolded project in the working directory `/`, to be addressed by the empty path; the
`codex` wrapper and `AGENTS.md` are in place. -/
def relativeProject : FS :=
  fsOfList [("/", .dir), ("/.frame", .dir), ("/.frame/config.json", .file "user config" 420),
            ("/.frame/bin", .dir), ("/.frame/bin/codex", .file "exec codex" 493),
            ("/AGENTS.md", .file "agents" 420)]

/-- A persisted config whose one custom tool, with the id `aider`, is stored under the key
`my-aider`. -/
def renamedKeyConfig : ToolConfig :=
  { activeTool := "claude", customTools := [("my-aider", aiderTool)] }

/-- A scaffolded project with the wrappers `codex` and `aider` and `AGENTS.md` in place. -/
def wrappedProject : FS :=
  fsOfList [("/p", .dir), ("/p/.frame", .dir), ("/p/.frame/config.json", .file "user config" 420),
            ("/p/.frame/bin", .dir), ("/p/.frame/bin/codex", .file "exec codex" 493),
            ("/p/.frame/bin/aider", .file "exec aider" 493),
            ("/p/AGENTS.md", .file "agents" 420)]

/-- A scaffolded project in which only the hidden directory and its config file exist. -/
def configOnlyProject : FS :=
  fsOfList [("/p", .dir), ("/p/.frame", .dir), ("/p/.frame/config.json", .file "user config" 420)]

/-- A scaffolded project with the `codex` wrapper in place and no `AGENTS.md`. -/
def noAgentsProject : FS :=
  fsOfList [("/p", .dir), ("/p/.frame", .dir), ("/p/.frame/config.json", .file "user config" 420),
            ("/p/.frame/bin", .dir), ("/p/.frame/bin/codex", .file "exec codex" 493)]

/-- A fresh project directory: nothing but the directory itself. -/
def freshDir : FS :=
  fsOfList [("/p", .dir)]

/-! ## Filesystem lemmas -/

/-- Every entry of `fs` is still there, unchanged, in `fs1`. -/
def Extends (fs fs1 : FS) : Prop :=
  ∀ q n, fs q = some n → fs1 q = some n

theorem Extends.refl (fs : FS) : Extends fs fs :=
  fun _ _ h => h

theorem Extends.trans {a b c : FS} (h1 : Extends a b) (h2 : Extends b c) : Extends a c :=
  fun q n h => h2 q n (h1 q n h)

theorem extends_set_of_none {fs : FS} {p : String} (h : fs p = none) (n : Option Node) :
    Extends fs (fs.set p n) := by
  intro q m hq
  unfold FS.set
  split
  · next heq => subst heq; rw [h] at hq; cases hq
  · exact hq

theorem set_same (fs : FS) (p : String) (n : Option Node) : (fs.set p n) p = n := by
  simp [FS.set]

theorem set_other (fs : FS) {p q : String} (n : Option Node) (h : q ≠ p) : (fs.set p n) q = fs q := by
  simp [FS.set, h]

/-- A link walk that ends at an entry is the same walk in any extension. -/
theorem follow_of_extends {lib : PathLib} {fs fs1 : FS} (hx : Extends fs fs1) :
    ∀ (n : Nat) (p r : String), follow lib fs n p = some r → (fs r).isSome = true →
      follow lib fs1 n p = some r := by
  intro n
  induction n with
  | zero => intro p r h; simp [follow] at h
  | succ k ih =>
    intro p r h hr
    unfold follow at h ⊢
    cases hp : fs p with
    | none =>
      rw [hp] at h
      simp only [Option.some.injEq] at h
      subst h
      rw [hp] at hr
      cases hr
    | some node =>
      rw [hp] at h
      rw [hx p node hp]
      cases node with
      | symlink t => exact ih _ _ h hr
      | file c m => exact h
      | dir => exact h

theorem existsSync_of_extends {lib : PathLib} {fs fs1 : FS} (hx : Extends fs fs1) {p : String}
    (h : existsSync lib fs p = true) : existsSync lib fs1 p = true := by
  unfold existsSync at h ⊢
  cases hf : follow lib fs linkFuel (lib.resolve [p]) with
  | none => simp only [hf] at h; cases h
  | some r =>
    simp only [hf] at h
    simp only [follow_of_extends hx _ _ _ hf h]
    cases hr : fs r with
    | none => rw [hr] at h; cases h
    | some node => rw [hx r node hr]; rfl

theorem readFileSync_of_extends {lib : PathLib} {fs fs1 : FS} (hx : Extends fs fs1) {p c : String}
    (h : readFileSync lib fs p = .ok c) : readFileSync lib fs1 p = .ok c := by
  unfold readFileSync at h ⊢
  cases hf : follow lib fs linkFuel (lib.resolve [p]) with
  | none => simp only [hf] at h; cases h
  | some r =>
    simp only [hf] at h
    cases hr : fs r with
    | none => simp only [hr] at h; cases h
    | some node =>
      simp only [follow_of_extends hx _ _ _ hf (by rw [hr]; rfl), hx r node hr]
      simp only [hr] at h
      exact h

/-- What a successful `storeFile` does: it replaces the file at the end of the link walk, or
creates one there. -/
theorem storeFile_cases {lib : PathLib} {fs fs1 : FS} {p c : String} {m : Nat}
    (h : storeFile lib fs p c m = .ok fs1) :
    ∃ r, follow lib fs linkFuel (lib.resolve [p]) = some r ∧
      ((∃ c0 m0, fs r = some (.file c0 m0) ∧ fs1 = fs.set r (some (.file c m0))) ∨
       (fs r = none ∧ parentError lib fs r = none ∧ fs1 = fs.set r (some (.file c m)))) := by
  unfold storeFile at h
  cases hf : follow lib fs linkFuel (lib.resolve [p]) with
  | none => simp only [hf] at h; cases h
  | some r =>
    simp only [hf] at h
    refine ⟨r, rfl, ?_⟩
    cases hr : fs r with
    | none =>
      simp only [hr] at h
      cases hpe : parentError lib fs r with
      | some e => simp only [hpe] at h; cases h
      | none =>
        simp only [hpe, Except.ok.injEq] at h
        exact Or.inr ⟨rfl, rfl, h.symm⟩
    | some node =>
      cases node with
      | file c0 m0 =>
        simp only [hr, Except.ok.injEq] at h
        exact Or.inl ⟨c0, m0, rfl, h.symm⟩
      | dir => simp only [hr] at h; cases h
      | symlink t => simp only [hr] at h; cases h

/-- A store through a path that does not exist only adds an entry. -/
theorem storeFile_extends {lib : PathLib} {fs fs1 : FS} {p c : String} {m : Nat}
    (hne : existsSync lib fs p = false) (h : storeFile lib fs p c m = .ok fs1) :
    Extends fs fs1 := by
  obtain ⟨r, hf, hcase⟩ := storeFile_cases h
  unfold existsSync at hne
  simp only [hf] at hne
  rcases hcase with ⟨c0, m0, hr, _⟩ | ⟨hr, _, hfs⟩
  · rw [hr] at hne; cases hne
  · subst hfs
    exact extends_set_of_none hr _

/-- A write to a path that does not exist only adds an entry. -/
theorem writeFileSync_extends {lib : PathLib} {u : Nat} {fs fs1 : FS} {p c : String} {m : Nat}
    (hne : existsSync lib fs p = false) (h : writeFileSync lib u fs p c m = .ok fs1) :
    Extends fs fs1 :=
  storeFile_extends hne h

/-- The walk from `q` is unchanged when its end point receives an entry that is no link. -/
theorem follow_set_end {lib : PathLib} {fs : FS} {r : String} (node : Node)
    (hnode : ∀ t, node ≠ .symlink t) :
    ∀ (n : Nat) (q : String), follow lib fs n q = some r →
      follow lib (fs.set r (some node)) n q = some r := by
  intro n
  induction n with
  | zero => intro q hq; simp [follow] at hq
  | succ k ih =>
    intro q hq
    unfold follow at hq ⊢
    by_cases hqr : q = r
    · subst hqr
      rw [set_same]
      cases node with
      | symlink t => exact absurd rfl (hnode t)
      | file c m => rfl
      | dir => rfl
    · rw [set_other fs _ hqr]
      cases hq2 : fs q with
      | none => simp only [hq2] at hq ⊢; exact hq
      | some nd =>
        cases nd with
        | symlink t => simp only [hq2] at hq ⊢; exact ih _ hq
        | file c2 m2 => simp only [hq2] at hq ⊢; exact hq
        | dir => simp only [hq2] at hq ⊢; exact hq

/-- After a successful store the path reads as the stored content. -/
theorem readFileSync_after_store {lib : PathLib} {fs fs1 : FS} {p c : String} {m : Nat}
    (h : storeFile lib fs p c m = .ok fs1) : readFileSync lib fs1 p = .ok c := by
  obtain ⟨r, hf, hcase⟩ := storeFile_cases h
  rcases hcase with ⟨c0, m0, _, hfs⟩ | ⟨_, _, hfs⟩
  · subst hfs
    unfold readFileSync
    simp only [follow_set_end (.file c m0) (by intro t; simp) _ _ hf, set_same]
  · subst hfs
    unfold readFileSync
    simp only [follow_set_end (.file c m) (by intro t; simp) _ _ hf, set_same]

/-- After a successful write the path reads as the written content. -/
theorem readFileSync_after_write {lib : PathLib} {u : Nat} {fs fs1 : FS} {p c : String} {m : Nat}
    (h : writeFileSync lib u fs p c m = .ok fs1) : readFileSync lib fs1 p = .ok c :=
  readFileSync_after_store h

/-- A path that can be read exists. -/
theorem existsSync_of_read {lib : PathLib} {fs : FS} {p c : String}
    (h : readFileSync lib fs p = .ok c) : existsSync lib fs p = true := by
  unfold readFileSync at h
  unfold existsSync
  cases hf : follow lib fs linkFuel (lib.resolve [p]) with
  | none => simp only [hf] at h; cases h
  | some r =>
    simp only [hf] at h ⊢
    cases hr : fs r with
    | none => simp only [hr] at h; cases h
    | some node => rfl

/-- A path that does not exist cannot be read. -/
theorem readFileSync_of_not_exists {lib : PathLib} {fs : FS} {p : String}
    (h : existsSync lib fs p = false) : ∃ e, readFileSync lib fs p = .error e := by
  cases hr : readFileSync lib fs p with
  | error e => exact ⟨e, rfl⟩
  | ok c => rw [existsSync_of_read hr] at h; cases h

/-- After a successful write the path exists. -/
theorem existsSync_after_write {lib : PathLib} {u : Nat} {fs fs1 : FS} {p c : String} {m : Nat}
    (h : writeFileSync lib u fs p c m = .ok fs1) : existsSync lib fs1 p = true :=
  existsSync_of_read (readFileSync_after_write h)

/-- Creating directories only adds entries. -/
theorem mkdirAt_extends {lib : PathLib} {fs : FS} :
    ∀ (n : Nat) (leaf : Bool) (k : String) (fs1 : FS),
      mkdirAt lib fs n leaf k = .ok fs1 → Extends fs fs1 := by
  intro n
  induction n with
  | zero => intro leaf k fs1 h; simp [mkdirAt] at h
  | succ j ih =>
    intro leaf k fs1 h
    unfold mkdirAt at h
    cases hk : fs k with
    | none =>
      simp only [hk] at h
      split at h
      · simp only [Except.ok.injEq] at h
        subst h
        exact extends_set_of_none hk _
      · cases hrec : mkdirAt lib fs j false (lib.dirname k) with
        | error e => simp only [hrec] at h; cases h
        | ok fs2 =>
          simp only [hrec, Except.ok.injEq] at h
          subst h
          intro q nd hq
          have hqk : q ≠ k := by
            intro e
            rw [e, hk] at hq
            cases hq
          rw [set_other _ _ hqk]
          exact ih _ _ _ hrec q nd hq
    | some node =>
      cases node with
      | dir => simp only [hk, Except.ok.injEq] at h; subst h; exact Extends.refl _
      | file c m => simp only [hk] at h; cases h
      | symlink t =>
        simp only [hk] at h
        split at h
        · split at h
          · simp only [Except.ok.injEq] at h; subst h; exact Extends.refl _
          · cases h
        · cases h

theorem mkdirSync_extends {lib : PathLib} {fs fs1 : FS} {p : String}
    (h : mkdirSync lib fs p = .ok fs1) : Extends fs fs1 :=
  mkdirAt_extends _ _ _ _ h

theorem symlinkSync_extends {lib : PathLib} {code : Option String} {fs fs1 : FS} {t p : String}
    (h : symlinkSync lib code fs t p = .ok fs1) : Extends fs fs1 := by
  unfold symlinkSync at h
  cases hp : fs (lib.resolve [p]) with
  | some node => simp only [hp] at h; cases h
  | none =>
    simp only [hp] at h
    cases hpe : parentError lib fs (lib.resolve [p]) with
    | some e => simp only [hpe] at h; cases h
    | none =>
      simp only [hpe] at h
      cases code with
      | some c => cases h
      | none =>
        simp only [Except.ok.injEq] at h
        subst h
        exact extends_set_of_none hp _

theorem copyFileSync_extends {lib : PathLib} {fs fs1 : FS} {src dest : String}
    (hne : existsSync lib fs dest = false) (h : copyFileSync lib fs src dest = .ok fs1) :
    Extends fs fs1 := by
  unfold copyFileSync at h
  split at h
  · cases h
  · split at h
    · exact storeFile_extends hne h
    · cases h
    · cases h
    · cases h

/-! ## Scaffolding steps only add entries where nothing existed -/

theorem andThen_extends {α β : Type} {fs : FS} {r : Except JsError α × FS}
    {k : α → FS → Except JsError β × FS} (h1 : Extends fs r.2)
    (h2 : ∀ a fs1, Extends fs fs1 → Extends fs (k a fs1).2) : Extends fs (andThen r k).2 := by
  unfold andThen
  rcases r with ⟨res, fs1⟩
  cases res with
  | ok a => exact h2 a fs1 h1
  | error e => exact h1

theorem step_write_extends {lib : PathLib} {u : Nat} {fs : FS} {p c : String} {m : Nat}
    (hne : existsSync lib fs p = false) :
    Extends fs (step (writeFileSync lib u fs p c m) fs).2 := by
  unfold step
  cases h : writeFileSync lib u fs p c m with
  | ok fs1 => exact writeFileSync_extends hne h
  | error e => exact Extends.refl _

theorem step_mkdir_extends {lib : PathLib} {fs : FS} {p : String} :
    Extends fs (step (mkdirSync lib fs p) fs).2 := by
  unfold step
  cases h : mkdirSync lib fs p with
  | ok fs1 => exact mkdirSync_extends h
  | error e => exact Extends.refl _

theorem createFileIfNotExists_extends (env : Env) (p : String) (c : Content) (fs : FS) :
    Extends fs (createFileIfNotExists env p c fs).2 := by
  unfold createFileIfNotExists
  cases hne : existsSync env.path fs p with
  | true => exact Extends.refl _
  | false =>
    simp only [Bool.not_false, if_true]
    exact andThen_extends (step_write_extends hne) (fun _ _ h => h)

/-- Called on a path that does not exist, `createSymlinkSafe` only adds an entry (if anything). -/
theorem createSymlinkSafe_extends (env : Env) (target linkPath : String) (fs : FS)
    (hne : existsSync env.path fs linkPath = false) :
    Extends fs (createSymlinkSafe env target linkPath fs).2 := by
  unfold createSymlinkSafe symlinkAttempt
  simp only [hne, Bool.false_eq_true, if_false]
  unfold andThen step
  cases hs : symlinkSync env.path env.symlinkError fs target linkPath with
  | ok fs1 => exact symlinkSync_extends hs
  | error e =>
    simp only
    split
    · split
      · cases hc : copyFileSync env.path fs
            (env.path.resolve [env.path.dirname linkPath, target]) linkPath with
        | ok fs2 => exact copyFileSync_extends hne hc
        | error e2 => exact Extends.refl _
      · exact Extends.refl _
    · exact Extends.refl _

/-- The loop over the wrappers changes nothing: it skips a wrapper that exists and throws at the
first one that does not. -/
theorem wrapperLoop_fs (env : Env) (tpl : Templates) (binDirPath : String) :
    ∀ (tools : List Tool) (created skipped : List String) (fs : FS),
      (wrapperLoop env tpl binDirPath tools created skipped fs).2 = fs := by
  intro tools
  induction tools with
  | nil => intro created skipped fs; rfl
  | cons tool rest ih =>
    intro created skipped fs
    unfold wrapperLoop
    simp only
    cases hne : existsSync env.path fs (env.path.join [binDirPath, wrapperFileName tool]) with
    | true => simp only [if_true]; exact ih _ _ _
    | false => rfl

theorem createWrapperScripts_extends (env : Env) (tpl : Templates) (cfg : ToolConfig)
    (projectPath : String) (fs : FS) :
    Extends fs (createWrapperScripts env tpl cfg projectPath fs).2 := by
  unfold createWrapperScripts
  simp only
  split
  · exact Extends.refl _
  · split
    · refine andThen_extends step_mkdir_extends (fun _ fs1 h => ?_)
      rw [wrapperLoop_fs]
      exact h
    · rw [wrapperLoop_fs]
      exact Extends.refl _

theorem rootFileLoop_extends (env : Env) :
    ∀ (files : List RootFile) (created skipped : List String) (fs : FS),
      Extends fs (rootFileLoop env files created skipped fs).2 := by
  intro files
  induction files with
  | nil => intro created skipped fs; exact Extends.refl _
  | cons file rest ih =>
    intro created skipped fs
    unfold rootFileLoop
    cases hne : existsSync env.path fs file.path with
    | true => simp only [if_true]; exact ih _ _ _
    | false =>
      simp only [Bool.false_eq_true, if_false]
      cases file.template with
      | error e => exact Extends.refl _
      | ok content =>
        simp only
        cases hw : writeFileSync env.path env.umask fs file.path (contentStr env content) 438 with
        | ok fs1 => exact (writeFileSync_extends hne hw).trans (ih _ _ _)
        | error e => exact Extends.refl _

/-- The loop over the root files reports as skipped every file that exists when it starts. -/
theorem rootFileLoop_skipped (env : Env) :
    ∀ (files : List RootFile) (created skipped : List String) (fs : FS) (r : UpgradeResult),
      (rootFileLoop env files created skipped fs).1 = .ok r →
      (∀ s ∈ skipped, s ∈ r.skipped) ∧
      (∀ f ∈ files, existsSync env.path fs f.path = true → f.name ∈ r.skipped) := by
  intro files
  induction files with
  | nil =>
    intro created skipped fs r h
    simp only [rootFileLoop, Except.ok.injEq] at h
    subst h
    exact ⟨fun s hs => hs, fun f hf => by cases hf⟩
  | cons file rest ih =>
    intro created skipped fs r h
    unfold rootFileLoop at h
    cases hne : existsSync env.path fs file.path with
    | true =>
      simp only [hne, if_true] at h
      obtain ⟨h1, h2⟩ := ih _ _ _ _ h
      refine ⟨fun s hs => h1 s (List.mem_append_left _ hs), ?_⟩
      intro f hf hex
      rcases List.mem_cons.mp hf with rfl | hmem
      · exact h1 _ (List.mem_append_right _ (List.mem_singleton_self _))
      · exact h2 f hmem hex
    | false =>
      simp only [hne, Bool.false_eq_true, if_false] at h
      cases ht : file.template with
      | error e => simp only [ht] at h; cases h
      | ok content =>
        simp only [ht] at h
        cases hw : writeFileSync env.path env.umask fs file.path (contentStr env content) 438 with
        | error e => simp only [hw] at h; cases h
        | ok fs1 =>
          simp only [hw] at h
          obtain ⟨h1, h2⟩ := ih _ _ _ _ h
          refine ⟨h1, ?_⟩
          intro f hf hex
          rcases List.mem_cons.mp hf with rfl | hmem
          · rw [hne] at hex; cases hex
          · exact h2 f hmem (existsSync_of_extends (writeFileSync_extends hne hw) hex)

/-- The function `upgradeFrameProject` never removes or alters an existing entry. -/
theorem upgradeFrameProject_extends (env : Env) (tpl : Templates) (cfg : ToolConfig)
    (projectPath : String) (fs : FS) :
    Extends fs (upgradeFrameProject env tpl cfg projectPath fs).2 := by
  unfold upgradeFrameProject
  split
  · exact Extends.refl _
  · refine andThen_extends (createWrapperScripts_extends env tpl cfg projectPath fs) ?_
    intro w fs1 h1
    refine andThen_extends (h1.trans (rootFileLoop_extends env _ _ _ fs1)) ?_
    intro r fs2 h2
    simp only
    cases hne : existsSync env.path fs2 (env.path.join [projectPath, env.consts.CLAUDE_SYMLINK]) with
    | true => exact h2
    | false => exact h2.trans (createSymlinkSafe_extends env _ _ fs2 hne)

/-! ## Registry lookups -/

theorem lookupField_append {α : Type} (k : String) (o : List (String × α)) (kv : String × α) :
    lookupField k (o ++ [kv]) =
      match lookupField k o with
      | some v => some v
      | none => if kv.1 = k then some kv.2 else none := by
  induction o with
  | nil => simp [lookupField]
  | cons hd tl ih =>
    rcases hd with ⟨k1, v1⟩
    simp only [List.cons_append, lookupField]
    split
    · rfl
    · exact ih

theorem lookupField_replaceKey (k k1 : String) (v : Tool) (o : ToolObj) :
    lookupField k (replaceKey k1 v o) =
      if k = k1 then (lookupField k o).map (fun _ => v) else lookupField k o := by
  induction o with
  | nil => simp [replaceKey, lookupField]
  | cons hd tl ih =>
    rcases hd with ⟨k2, v2⟩
    unfold replaceKey
    by_cases h21 : k2 = k1
    · subst h21
      by_cases hk : k2 = k
      · subst hk; simp [lookupField]
      · have hk2 : ¬ k = k2 := fun e => hk e.symm
        simp [lookupField, hk, hk2]
    · simp only [h21, if_false, lookupField]
      by_cases hk : k2 = k
      · subst hk; simp [h21]
      · simp only [hk, if_false]
        exact ih

theorem lookupField_insertIndexKey (k k1 : String) (n : Nat) (v : Tool) (o : ToolObj)
    (hnew : lookupField k1 o = none) :
    lookupField k (insertIndexKey n k1 v o) = if k = k1 then some v else lookupField k o := by
  induction o with
  | nil =>
    by_cases hk : k1 = k
    · subst hk; simp [insertIndexKey, lookupField]
    · have hk2 : ¬ k = k1 := fun e => hk e.symm
      simp [insertIndexKey, lookupField, hk, hk2]
  | cons hd tl ih =>
    rcases hd with ⟨k2, v2⟩
    have h21 : k2 ≠ k1 := by
      intro e
      simp [lookupField, e] at hnew
    have htl : lookupField k1 tl = none := by
      simpa [lookupField, h21] using hnew
    have hhead : lookupField k ((k1, v) :: (k2, v2) :: tl) =
        if k = k1 then some v else lookupField k ((k2, v2) :: tl) := by
      by_cases hk : k1 = k
      · subst hk; simp [lookupField]
      · have hk2 : ¬ k = k1 := fun e => hk e.symm
        simp [lookupField, hk, hk2]
    unfold insertIndexKey
    split
    · split
      · simp only [lookupField]
        by_cases hk : k2 = k
        · subst hk
          have : ¬ k2 = k1 := h21
          simp [this]
        · simp only [hk, if_false]
          exact ih htl
      · exact hhead
    · exact hhead

/-- Defining a property makes it readable under its key and leaves the other keys alone. -/
theorem lookupField_defineProp (k : String) (o : ToolObj) (kv : String × Tool) :
    lookupField k (defineProp o kv) = if k = kv.1 then some kv.2 else lookupField k o := by
  unfold defineProp
  cases hl : lookupField kv.1 o with
  | some old =>
    simp only
    rw [lookupField_replaceKey]
    by_cases hk : k = kv.1
    · subst hk; simp [hl]
    · simp [hk]
  | none =>
    simp only
    cases arrayIndex kv.1 with
    | some n => exact lookupField_insertIndexKey k kv.1 n kv.2 o hl
    | none =>
      rw [lookupField_append]
      by_cases hk : k = kv.1
      · subst hk; simp [hl]
      · have hk2 : ¬ kv.1 = k := fun e => hk e.symm
        simp only [hk, hk2, if_false]
        cases lookupField k o <;> rfl

/-- Spreading entries into an object never removes a key. -/
theorem lookupField_spreadInto_isSome (k : String) :
    ∀ (extra : List (String × Tool)) (base : ToolObj),
      (lookupField k base).isSome = true → (lookupField k (spreadInto base extra)).isSome = true := by
  intro extra
  induction extra with
  | nil => intro base h; exact h
  | cons kv rest ih =>
    intro base h
    unfold spreadInto
    simp only [List.foldl_cons]
    apply ih
    rw [lookupField_defineProp]
    split
    · rfl
    · exact h

/-- The id `claude` is always registered. -/
theorem claude_registered (cfg : ToolConfig) :
    ∃ t, lookupField "claude" (getAvailableTools cfg) = some t := by
  have h := lookupField_spreadInto_isSome "claude" (spreadInto [] cfg.customTools) AI_TOOLS (by decide)
  exact Option.isSome_iff_exists.mp h

/-- The function `saveConfig` changes nothing of the module state but the record of effects. -/
theorem saveConfig_fields (env : Env) (m : Manager) (fs : FS) :
    (saveConfig env m fs).1.config = m.config ∧
    (saveConfig env m fs).1.configPath = m.configPath ∧
    (saveConfig env m fs).1.mainWindow = m.mainWindow := by
  unfold saveConfig
  cases m.configPath with
  | none => exact ⟨rfl, rfl, rfl⟩
  | some p =>
    simp only
    split <;> exact ⟨rfl, rfl, rfl⟩

/-- For an id that is not a member name of `Object.prototype`, `setActiveTool` succeeds exactly
on the registered ids, then makes the id active, and otherwise changes nothing. -/
theorem setActiveTool_of_plain_id (env : Env) (toolId : String) (m : Manager) (fs : FS)
    (hk : toolId ∉ objectPrototypeKeys) :
    ((setActiveTool env toolId m fs).1 = true ↔
      (lookupField toolId (getAvailableTools m.config)).isSome = true) ∧
    ((setActiveTool env toolId m fs).1 = true →
      (setActiveTool env toolId m fs).2.1.config.activeTool = toolId) ∧
    ((setActiveTool env toolId m fs).1 = false → setActiveTool env toolId m fs = (false, m, fs)) := by
  cases hl : lookupField toolId (getAvailableTools m.config) with
  | some t =>
    have hp : getProp (getAvailableTools m.config) toolId = .own t := by simp [getProp, hl]
    simp only [setActiveTool, hp, JsProp.truthy, if_true, Option.isSome_some, true_iff, true_and]
    refine ⟨fun _ => ?_, fun h => by cases h⟩
    split <;> simp only [(saveConfig_fields env _ fs).1]
  | none =>
    have hp : getProp (getAvailableTools m.config) toolId = .undefined := by
      simp [getProp, hl, hk]
    simp [setActiveTool, hp, JsProp.truthy]

/-- For an active id that is not a member name of `Object.prototype`, `getActiveTool` returns
the descriptor registered under it, or else the one registered under `claude`. -/
theorem getActiveTool_of_plain_id (cfg : ToolConfig) (hk : cfg.activeTool ∉ objectPrototypeKeys) :
    ∃ t, getActiveTool cfg = .own t ∧
      (lookupField cfg.activeTool (getAvailableTools cfg) = some t ∨
        (lookupField cfg.activeTool (getAvailableTools cfg) = none ∧
          lookupField "claude" (getAvailableTools cfg) = some t)) := by
  cases hl : lookupField cfg.activeTool (getAvailableTools cfg) with
  | some t =>
    exact ⟨t, by simp [getActiveTool, getProp, hl, JsProp.orElse, JsProp.truthy], Or.inl rfl⟩
  | none =>
    obtain ⟨t, ht⟩ := claude_registered cfg
    exact ⟨t, by simp [getActiveTool, getProp, hl, hk, JsProp.orElse, JsProp.truthy, ht],
      Or.inr ⟨rfl, ht⟩⟩


/-! ## The merged registry as an object -/

theorem keys_replaceKey (k : String) (v : Tool) (o : ToolObj) :
    (replaceKey k v o).map Prod.fst = o.map Prod.fst := by
  induction o with
  | nil => rfl
  | cons hd tl ih =>
    rcases hd with ⟨k1, v1⟩
    unfold replaceKey
    split
    · rfl
    · simp only [List.map_cons, ih]

theorem keys_insertIndexKey (n : Nat) (k : String) (v : Tool) (o : ToolObj) :
    ((insertIndexKey n k v o).map Prod.fst).Perm (k :: o.map Prod.fst) := by
  induction o with
  | nil => exact List.Perm.refl _
  | cons hd tl ih =>
    rcases hd with ⟨k1, v1⟩
    unfold insertIndexKey
    split
    · split
      · simp only [List.map_cons]
        exact (List.Perm.cons k1 ih).trans (List.Perm.swap k k1 _)
      · exact List.Perm.refl _
    · exact List.Perm.refl _

/-- A key is among the keys of a field list exactly when a lookup finds it. -/
theorem mem_keys_iff {α : Type} (k : String) (o : List (String × α)) :
    k ∈ o.map Prod.fst ↔ (lookupField k o).isSome = true := by
  induction o with
  | nil => simp [lookupField]
  | cons hd tl ih =>
    rcases hd with ⟨k1, v1⟩
    simp only [List.map_cons, List.mem_cons, lookupField]
    by_cases h : k1 = k
    · subst h; simp
    · have h2 : ¬ k = k1 := fun e => h e.symm
      simp only [h, h2, false_or, if_false]
      exact ih

theorem keys_defineProp_perm (o : ToolObj) (kv : String × Tool) :
    ((defineProp o kv).map Prod.fst).Perm
      (if (lookupField kv.1 o).isSome = true then o.map Prod.fst else kv.1 :: o.map Prod.fst) := by
  unfold defineProp
  cases hl : lookupField kv.1 o with
  | some old =>
    simp only [Option.isSome_some, if_true]
    rw [keys_replaceKey]
  | none =>
    simp only [Option.isSome_none, Bool.false_eq_true, if_false]
    cases arrayIndex kv.1 with
    | some n => exact keys_insertIndexKey n kv.1 kv.2 o
    | none =>
      simp only [List.map_append, List.map_cons, List.map_nil]
      exact List.perm_append_singleton _ _

/-- Defining a property keeps the keys of an object distinct. -/
theorem keys_defineProp_nodup (o : ToolObj) (kv : String × Tool)
    (h : (o.map Prod.fst).Nodup) : ((defineProp o kv).map Prod.fst).Nodup := by
  have hp := keys_defineProp_perm o kv
  cases hl : lookupField kv.1 o with
  | some old =>
    simp only [hl, Option.isSome_some, if_true] at hp
    exact hp.nodup_iff.mpr h
  | none =>
    simp only [hl, Option.isSome_none, Bool.false_eq_true, if_false] at hp
    refine hp.nodup_iff.mpr (List.nodup_cons.mpr ⟨?_, h⟩)
    intro hmem
    have := (mem_keys_iff kv.1 o).mp hmem
    rw [hl] at this
    cases this

theorem keys_spreadInto_nodup :
    ∀ (extra : List (String × Tool)) (base : ToolObj), (base.map Prod.fst).Nodup →
      ((spreadInto base extra).map Prod.fst).Nodup := by
  intro extra
  induction extra with
  | nil => intro base h; exact h
  | cons kv rest ih =>
    intro base h
    unfold spreadInto
    simp only [List.foldl_cons]
    exact ih _ (keys_defineProp_nodup base kv h)

/-- After a spread, a key reads as the last spread entry under it, else as in the base object. -/
theorem lookupField_spreadInto (k : String) :
    ∀ (extra : List (String × Tool)) (base : ToolObj),
      lookupField k (spreadInto base extra) =
        match lookupField k extra.reverse with
        | some v => some v
        | none => lookupField k base := by
  intro extra
  induction extra with
  | nil => intro base; simp [spreadInto, lookupField]
  | cons kv rest ih =>
    intro base
    have hstep : spreadInto base (kv :: rest) = spreadInto (defineProp base kv) rest := by
      simp [spreadInto]
    rw [hstep, ih, List.reverse_cons, lookupField_append, lookupField_defineProp]
    cases lookupField k rest.reverse with
    | some v => rfl
    | none =>
      by_cases hk : k = kv.1
      · subst hk; simp
      · have hk2 : ¬ kv.1 = k := fun e => hk e.symm
        simp [hk, hk2]

/-- With distinct keys, the first and the last entry under a key are the same entry. -/
theorem lookupField_reverse {α : Type} (k : String) :
    ∀ (o : List (String × α)), (o.map Prod.fst).Nodup →
      lookupField k o.reverse = lookupField k o := by
  intro o
  induction o with
  | nil => intro _; rfl
  | cons hd tl ih =>
    intro h
    rcases hd with ⟨k1, v1⟩
    simp only [List.map_cons, List.nodup_cons] at h
    rw [List.reverse_cons, lookupField_append, ih h.2]
    simp only [lookupField]
    by_cases hk : k1 = k
    · subst hk
      have hnone : lookupField k1 tl = none := by
        cases hl : lookupField k1 tl with
        | none => rfl
        | some v =>
          exact absurd ((mem_keys_iff k1 tl).mpr (by rw [hl]; rfl)) h.1
      simp [hnone]
    · simp only [hk, if_false]
      cases lookupField k tl <;> rfl

/-- With distinct keys, an entry of the list is what a lookup of its key returns. -/
theorem lookupField_of_mem {α : Type} (k : String) (v : α) :
    ∀ (o : List (String × α)), (o.map Prod.fst).Nodup → (k, v) ∈ o → lookupField k o = some v := by
  intro o
  induction o with
  | nil => intro _ h; cases h
  | cons hd tl ih =>
    intro hnd hmem
    rcases hd with ⟨k1, v1⟩
    simp only [List.map_cons, List.nodup_cons] at hnd
    simp only [lookupField]
    rcases List.mem_cons.mp hmem with heq | htl
    · simp only [Prod.mk.injEq] at heq
      simp [heq.1, heq.2]
    · have hne : k1 ≠ k := by
        intro e
        subst e
        exact hnd.1 (List.mem_map_of_mem Prod.fst htl)
      simp only [hne, if_false]
      exact ih hnd.2 htl

/-- A new key that is not integer-like is appended. -/
theorem defineProp_append (o : ToolObj) (kv : String × Tool) (hnew : lookupField kv.1 o = none)
    (hidx : arrayIndex kv.1 = none) : defineProp o kv = o ++ [kv] := by
  simp [defineProp, hnew, hidx]

/-- Spreading entries with distinct, new, non-integer-like keys appends them in their order. -/
theorem spreadInto_append :
    ∀ (extra : List (String × Tool)) (base : ToolObj), (extra.map Prod.fst).Nodup →
      (∀ k ∈ extra.map Prod.fst, arrayIndex k = none ∧ lookupField k base = none) →
      spreadInto base extra = base ++ extra := by
  intro extra
  induction extra with
  | nil => intro base _ _; simp [spreadInto]
  | cons kv rest ih =>
    intro base hnd hkeys
    simp only [List.map_cons, List.nodup_cons] at hnd
    have hkv := hkeys kv.1 (by simp)
    have hstep : spreadInto base (kv :: rest) = spreadInto (defineProp base kv) rest := by
      simp [spreadInto]
    rw [hstep, defineProp_append base kv hkv.2 hkv.1, ih (base ++ [kv]) hnd.2]
    · simp
    · intro k hk
      have hk0 := hkeys k (by simp only [List.map_cons, List.mem_cons]; exact Or.inr hk)
      refine ⟨hk0.1, ?_⟩
      rw [lookupField_append, hk0.2]
      have hne : ¬ kv.1 = k := by
        intro e
        rw [← e] at hk
        exact hnd.1 hk
      simp [hne]

theorem mem_of_lookupField {α : Type} (k : String) (v : α) :
    ∀ (o : List (String × α)), lookupField k o = some v → (k, v) ∈ o := by
  intro o
  induction o with
  | nil => intro h; simp [lookupField] at h
  | cons hd tl ih =>
    intro h
    rcases hd with ⟨k1, v1⟩
    simp only [lookupField] at h
    split at h
    · next heq =>
      simp only [Option.some.injEq] at h
      subst h; subst heq
      exact List.mem_cons_self _ _
    · exact List.mem_cons_of_mem _ (ih h)

/-- A registered tool that needs a wrapper is one of `getToolsRequiringWrapper`. -/
theorem mem_getToolsRequiringWrapper (cfg : ToolConfig) (k : String) (t : Tool)
    (hreg : lookupField k (getAvailableTools cfg) = some t) (hneeds : t.needsWrapper = true) :
    t ∈ getToolsRequiringWrapper cfg := by
  unfold getToolsRequiringWrapper
  refine List.mem_filter.mpr ⟨?_, hneeds⟩
  exact List.mem_map.mpr ⟨(k, t), mem_of_lookupField k t _ hreg, rfl⟩

/-- Where the wrapper of a registered tool exists, `getExecutableCommand` returns its path. -/
theorem getExecutableCommand_of_wrapper (env : Env) (cfg : ToolConfig) (fs : FS)
    (k projectPath : String) (t : Tool) (hP : projectPath ≠ "")
    (hreg : lookupField k (getAvailableTools cfg) = some t) (hneeds : t.needsWrapper = true)
    (hex : existsSync env.path fs (env.path.join [projectPath, env.consts.FRAME_DIR,
      env.consts.FRAME_BIN_DIR, wrapperFileName t]) = true) :
    getExecutableCommand env cfg fs k (some projectPath) =
      some (env.path.join [projectPath, env.consts.FRAME_DIR, env.consts.FRAME_BIN_DIR,
        wrapperFileName t]) := by
  have hp : getProp (getAvailableTools cfg) k = .own t := by simp [getProp, hreg]
  have hname : (match truthyString t.wrapperName with
      | some w => some w
      | none => some t.command) = some (wrapperFileName t) := by
    unfold wrapperFileName
    cases truthyString t.wrapperName <;> rfl
  have hts : truthyString (some projectPath) = some projectPath := by
    simp [truthyString, hP]
  unfold getExecutableCommand
  simp only [hp, JsProp.orElse, JsProp.truthy, if_true, JsProp.needsWrapper, JsProp.command,
    JsProp.wrapperName, hname, hneeds, hts, hex, Bool.not_true, Bool.false_eq_true, if_false]


/-! ## The run of `initializeFrameProject` -/

theorem andThen_ok {α β : Type} (a : α) (fs : FS) (k : α → FS → Except JsError β × FS) :
    andThen (.ok a, fs) k = k a fs := rfl

/-- Invariant rule for `andThen`: `P` holds before the continuation, `Q` after it or on a throw. -/
theorem andThen_inv {α β : Type} {P Q : FS → Prop} {r : Except JsError α × FS}
    {k : α → FS → Except JsError β × FS} (hP : P r.2) (hPQ : ∀ fs1, P fs1 → Q fs1)
    (h2 : ∀ a fs1, P fs1 → Q (k a fs1).2) : Q (andThen r k).2 := by
  unfold andThen
  rcases r with ⟨res, fs1⟩
  cases res with
  | ok a => exact h2 a fs1 hP
  | error e => exact hPQ fs1 hP

theorem andThen_ok_inv {α β : Type} {r : Except JsError α × FS}
    {k : α → FS → Except JsError β × FS} {b : β} {fs1 : FS}
    (h : andThen r k = (.ok b, fs1)) : ∃ a s, r = (.ok a, s) ∧ k a s = (.ok b, fs1) := by
  unfold andThen at h
  rcases r with ⟨res, s⟩
  cases res with
  | ok a => exact ⟨a, s, rfl, h⟩
  | error e => simp only [Prod.mk.injEq] at h; cases h.1

/-- The statements of `initializeFrameProject` that run: the directory, the config write, and
the call `templates.getAgentsTemplate(name)`, which throws. -/
theorem initializeBody_eq (env : Env) (tpl : Templates) (cfg : ToolConfig)
    (projectPath : String) (name : Json) (fs : FS) :
    initializeBody env tpl cfg projectPath name fs =
      andThen (if !existsSync env.path fs (env.path.join [projectPath, env.consts.FRAME_DIR])
               then step (mkdirSync env.path fs (env.path.join [projectPath, env.consts.FRAME_DIR])) fs
               else (.ok (), fs)) fun _ fs =>
      andThen (step (writeFileSync env.path env.umask fs
                (env.path.join [env.path.join [projectPath, env.consts.FRAME_DIR],
                  env.consts.FRAME_CONFIG_FILE])
                (env.jsonStringify (tpl.getFrameConfigTemplate name)) 438) fs) fun _ fs =>
      (.error (notAFunction "getAgentsTemplate"), fs) :=
  rfl

/-- The function `initializeFrameProject` never returns normally: whatever the project holds, it
throws, at the latest when it calls `templates.getAgentsTemplate`. -/
theorem initializeFrameProject_throws (env : Env) (tpl : Templates) (cfg : ToolConfig)
    (projectPath : String) (projectName : Option String) (fs : FS) :
    ∃ e, (initializeFrameProject env tpl cfg projectPath projectName fs).result = .error e ∧
      (initializeFrameProject env tpl cfg projectPath projectName fs).frameStatus = [] := by
  unfold initializeFrameProject
  simp only
  cases hb : initializeBody env tpl cfg projectPath
      (initializeName env projectPath projectName) fs with
  | mk res s =>
    cases res with
    | error e => exact ⟨e, rfl, rfl⟩
    | ok u =>
      rw [initializeBody_eq] at hb
      obtain ⟨_, _, _, hb⟩ := andThen_ok_inv hb
      obtain ⟨_, _, _, hb⟩ := andThen_ok_inv hb
      simp only [Prod.mk.injEq] at hb
      cases hb.1

theorem initializeFrameProject_fs (env : Env) (tpl : Templates) (cfg : ToolConfig)
    (projectPath : String) (projectName : Option String) (fs : FS) :
    (initializeFrameProject env tpl cfg projectPath projectName fs).fs =
      (initializeBody env tpl cfg projectPath (initializeName env projectPath projectName) fs).2 := by
  unfold initializeFrameProject
  simp only
  split <;> simp_all

/-- A link walk is the same in a filesystem that only has more entries, none of them a link. -/
theorem follow_of_added {lib : PathLib} {fs fs1 : FS} (hx : Extends fs fs1)
    (hnew : ∀ q t, fs q = none → fs1 q ≠ some (.symlink t)) :
    ∀ (n : Nat) (x : String), follow lib fs1 n x = follow lib fs n x := by
  intro n
  induction n with
  | zero => intro x; rfl
  | succ k ih =>
    intro x
    unfold follow
    cases hq : fs x with
    | some nd =>
      rw [hx x nd hq]
      cases nd with
      | symlink t => exact ih _
      | file c m => rfl
      | dir => rfl
    | none =>
      cases hq1 : fs1 x with
      | none => rfl
      | some nd =>
        cases nd with
        | symlink t => exact absurd hq1 (hnew x t hq)
        | file c m => rfl
        | dir => rfl

/-- Creating directories stores no link. -/
theorem mkdirAt_adds_dirs {lib : PathLib} {fs : FS} :
    ∀ (n : Nat) (leaf : Bool) (k : String) (fs1 : FS),
      mkdirAt lib fs n leaf k = .ok fs1 → ∀ q t, fs q = none → fs1 q ≠ some (.symlink t) := by
  intro n
  induction n with
  | zero => intro leaf k fs1 h; simp [mkdirAt] at h
  | succ j ih =>
    intro leaf k fs1 h q t hq
    unfold mkdirAt at h
    cases hk : fs k with
    | none =>
      simp only [hk] at h
      split at h
      · simp only [Except.ok.injEq] at h
        subst h
        unfold FS.set
        split
        · simp
        · rw [hq]; simp
      · cases hrec : mkdirAt lib fs j false (lib.dirname k) with
        | error e => simp only [hrec] at h; cases h
        | ok fs2 =>
          simp only [hrec, Except.ok.injEq] at h
          subst h
          unfold FS.set
          split
          · simp
          · exact ih _ _ _ hrec q t hq
    | some node =>
      cases node with
      | dir => simp only [hk, Except.ok.injEq] at h; subst h; rw [hq]; simp
      | file c m => simp only [hk] at h; cases h
      | symlink t0 =>
        simp only [hk] at h
        split at h
        · split at h
          · simp only [Except.ok.injEq] at h; subst h; rw [hq]; simp
          · cases h
        · cases h

/-- A store changes at most the entry its link walk ends at. -/
theorem storeFile_other {lib : PathLib} {fs fs1 : FS} {p c q : String} {m : Nat}
    (h : storeFile lib fs p c m = .ok fs1)
    (hq : follow lib fs linkFuel (lib.resolve [p]) ≠ some q) : fs1 q = fs q := by
  obtain ⟨r, hf, hcase⟩ := storeFile_cases h
  have hqr : q ≠ r := by
    intro e
    apply hq
    rw [hf, e]
  rcases hcase with ⟨c0, m0, _, hfs⟩ | ⟨_, _, hfs⟩
  · subst hfs; exact set_other fs _ hqr
  · subst hfs; exact set_other fs _ hqr

/-- The function `initializeFrameProject` leaves every entry as it was, except the one its
config write lands on: the end of the link walk from the config path. -/
theorem initialize_keeps_other_entries (env : Env) (tpl : Templates) (cfg : ToolConfig)
    (projectPath : String) (projectName : Option String) (fs : FS) (q : String) (n : Node)
    (hq : fs q = some n)
    (hcfg : follow env.path fs linkFuel
      (env.path.resolve [env.path.join [env.path.join [projectPath, env.consts.FRAME_DIR],
        env.consts.FRAME_CONFIG_FILE]]) ≠ some q) :
    (initializeFrameProject env tpl cfg projectPath projectName fs).fs q = some n := by
  rw [initializeFrameProject_fs, initializeBody_eq]
  apply andThen_inv
    (P := fun s => s q = some n ∧ ∀ x, follow env.path s linkFuel x = follow env.path fs linkFuel x)
    (Q := fun s => s q = some n)
  · split
    · unfold step
      cases hm : mkdirSync env.path fs (env.path.join [projectPath, env.consts.FRAME_DIR]) with
      | error e => exact ⟨hq, fun _ => rfl⟩
      | ok fs1 =>
        exact ⟨mkdirSync_extends hm q n hq,
          fun x => follow_of_added (mkdirSync_extends hm) (mkdirAt_adds_dirs _ _ _ _ hm) _ x⟩
    · exact ⟨hq, fun _ => rfl⟩
  · exact fun _ h => h.1
  · intro _ s hs
    obtain ⟨hs, hf⟩ := hs
    apply andThen_inv (P := fun s => s q = some n) (Q := fun s => s q = some n)
    · unfold step
      cases hw : writeFileSync env.path env.umask s (env.path.join [env.path.join [projectPath,
          env.consts.FRAME_DIR], env.consts.FRAME_CONFIG_FILE])
          (env.jsonStringify (tpl.getFrameConfigTemplate
            (initializeName env projectPath projectName))) 438 with
      | error e => exact hs
      | ok s1 =>
        show s1 q = some n
        rw [storeFile_other hw (by rw [hf]; exact hcfg)]
        exact hs
    · exact fun _ h => h
    · exact fun _ _ h => h

/-- Whenever the hidden directory exists and the config path holds a regular file,
`initializeFrameProject` replaces the file's content by the freshly generated config and then
throws. -/
theorem initialize_overwrites_config (env : Env) (tpl : Templates) (cfg : ToolConfig)
    (projectPath : String) (projectName : Option String) (fs : FS) (c : String) (m : Nat)
    (hdir : existsSync env.path fs (env.path.join [projectPath, env.consts.FRAME_DIR]) = true)
    (hfile : fs (env.path.resolve [env.path.join [env.path.join [projectPath,
      env.consts.FRAME_DIR], env.consts.FRAME_CONFIG_FILE]]) = some (.file c m)) :
    (initializeFrameProject env tpl cfg projectPath projectName fs).fs
        (env.path.resolve [env.path.join [env.path.join [projectPath, env.consts.FRAME_DIR],
          env.consts.FRAME_CONFIG_FILE]]) =
      some (.file (env.jsonStringify (tpl.getFrameConfigTemplate
        (initializeName env projectPath projectName))) m) ∧
    (initializeFrameProject env tpl cfg projectPath projectName fs).result =
      .error (notAFunction "getAgentsTemplate") := by
  have hw : writeFileSync env.path env.umask fs (env.path.join [env.path.join [projectPath,
      env.consts.FRAME_DIR], env.consts.FRAME_CONFIG_FILE])
      (env.jsonStringify (tpl.getFrameConfigTemplate
        (initializeName env projectPath projectName))) 438 =
      .ok (fs.set (env.path.resolve [env.path.join [env.path.join [projectPath,
        env.consts.FRAME_DIR], env.consts.FRAME_CONFIG_FILE]]) (some (.file (env.jsonStringify
          (tpl.getFrameConfigTemplate (initializeName env projectPath projectName))) m))) := by
    simp [writeFileSync, storeFile, follow, linkFuel, hfile]
  have hb : initializeBody env tpl cfg projectPath (initializeName env projectPath projectName)
      fs = (.error (notAFunction "getAgentsTemplate"),
        fs.set (env.path.resolve [env.path.join [env.path.join [projectPath,
          env.consts.FRAME_DIR], env.consts.FRAME_CONFIG_FILE]]) (some (.file (env.jsonStringify
            (tpl.getFrameConfigTemplate (initializeName env projectPath projectName))) m))) := by
    rw [initializeBody_eq]
    simp only [hdir, Bool.not_true, Bool.false_eq_true, if_false]
    rw [andThen_ok]
    simp only [step, hw]
    rfl
  unfold initializeFrameProject
  simp only [hb, and_true]
  exact set_same _ _ _

/-! ## The link primitive -/

theorem set_set (fs : FS) (p : String) (a b : Option Node) : (fs.set p a).set p b = fs.set p b := by
  funext q
  unfold FS.set
  split <;> rfl

theorem set_none_of_none {fs : FS} {p : String} (h : fs p = none) : fs.set p none = fs := by
  funext q
  unfold FS.set
  split
  · next e => rw [e, h]
  · rfl

theorem existsSync_set_none (lib : PathLib) (fs : FS) (p : String) :
    existsSync lib (fs.set (lib.resolve [p]) none) p = false := by
  simp [existsSync, follow, linkFuel, set_same]

/-- A path that exists holds an entry. -/
theorem entry_of_existsSync {lib : PathLib} {fs : FS} {p : String}
    (h : existsSync lib fs p = true) : fs (lib.resolve [p]) ≠ none := by
  intro hp
  simp [existsSync, follow, linkFuel, hp] at h

/-- A path that holds nothing does not exist. -/
theorem existsSync_of_none {lib : PathLib} {fs : FS} {p : String}
    (h : fs (lib.resolve [p]) = none) : existsSync lib fs p = false := by
  simp [existsSync, follow, linkFuel, h]

/-- The errors for a missing parent are none of the platform's refusals. -/
theorem parentError_code {lib : PathLib} {fs : FS} {k : String} {e : JsError}
    (h : parentError lib fs k = some e) :
    e = .sys "ELOOP" ∨ e = .sys "ENOTDIR" ∨ e = .sys "ENOENT" := by
  unfold parentError at h
  split at h
  · simp only [Option.some.injEq] at h; exact Or.inl h.symm
  · split at h
    · cases h
    · simp only [Option.some.injEq] at h; exact Or.inr (Or.inl h.symm)
    · simp only [Option.some.injEq] at h; exact Or.inr (Or.inr h.symm)

/-- On a live symbolic link `createSymlinkSafe` unlinks it and then proceeds as on a free path. -/
theorem createSymlinkSafe_unlink (env : Env) (target linkPath : String) (fs : FS) (t0 : String)
    (hl : fs (env.path.resolve [linkPath]) = some (.symlink t0))
    (hex : existsSync env.path fs linkPath = true) :
    createSymlinkSafe env target linkPath fs =
      createSymlinkSafe env target linkPath (fs.set (env.path.resolve [linkPath]) none) := by
  unfold createSymlinkSafe symlinkAttempt
  simp only [hex, if_true, lstatIsSymbolicLink, hl, unlinkSync, existsSync_set_none,
    Bool.false_eq_true, if_false]

/-- Called on a free path whose parent directory exists, `createSymlinkSafe` comes down to the
platform: a link where links are made, a copy of the target where they are refused with
`EPERM` or `EPROTO` and the target is a readable file. -/
theorem createSymlinkSafe_free (env : Env) (target linkPath : String) (fs : FS)
    (hnone : fs (env.path.resolve [linkPath]) = none)
    (hpar : parentError env.path fs (env.path.resolve [linkPath]) = none) :
    (env.symlinkError = none →
      createSymlinkSafe env target linkPath fs =
        (true, fs.set (env.path.resolve [linkPath]) (some (.symlink target)))) ∧
    (∀ code s c m, env.symlinkError = some code → (code = "EPERM" ∨ code = "EPROTO") →
      follow env.path fs linkFuel
        (env.path.resolve [env.path.resolve [env.path.dirname linkPath, target]]) = some s →
      fs s = some (.file c m) →
      createSymlinkSafe env target linkPath fs =
        (true, fs.set (env.path.resolve [linkPath]) (some (.file c m)))) := by
  have hex : existsSync env.path fs linkPath = false := existsSync_of_none hnone
  have hfl : follow env.path fs linkFuel (env.path.resolve [linkPath]) =
      some (env.path.resolve [linkPath]) := by
    simp [follow, linkFuel, hnone]
  constructor
  · intro hplat
    unfold createSymlinkSafe symlinkAttempt
    simp only [hex, Bool.false_eq_true, if_false, andThen, step, symlinkSync, hnone, hpar, hplat]
  · intro code s c m hplat hclass hs hfile
    have hext : existsSync env.path fs
        (env.path.resolve [env.path.dirname linkPath, target]) = true := by
      simp [existsSync, hs, hfile]
    unfold createSymlinkSafe symlinkAttempt
    simp only [hex, Bool.false_eq_true, if_false, andThen, step, symlinkSync, hnone, hpar, hplat,
      JsError.code, Option.some.injEq, hclass, if_true, hext, copyFileSync, hs, hfile,
      storeFile, hfl]

/-- When the link call of `createSymlinkSafe` fails with `EPERM` or `EPROTO`, the path was free
or held a live link that has been removed, its parent directory exists, and the error is the
platform's refusal. -/
theorem symlinkAttempt_refused (env : Env) (target linkPath : String) (fs : FS) (code : String)
    (hclass : code = "EPERM" ∨ code = "EPROTO")
    (hfail : (symlinkAttempt env target linkPath fs).1 = .error (.sys code)) :
    createSymlinkSafe env target linkPath fs =
      createSymlinkSafe env target linkPath (fs.set (env.path.resolve [linkPath]) none) ∧
    parentError env.path (fs.set (env.path.resolve [linkPath]) none)
      (env.path.resolve [linkPath]) = none ∧
    env.symlinkError = some code := by
  have hne : ∀ e, parentError env.path (fs.set (env.path.resolve [linkPath]) none)
      (env.path.resolve [linkPath]) = some e → e ≠ .sys code := by
    intro e he
    rcases parentError_code he with h | h | h <;> subst h <;>
      rcases hclass with h2 | h2 <;> subst h2 <;> decide
  have hEEXIST : code ≠ "EEXIST" := by
    rcases hclass with h | h <;> subst h <;> decide
  -- the attempt on the cleared filesystem
  have hfree : ∀ e, (match symlinkSync env.path env.symlinkError
        (fs.set (env.path.resolve [linkPath]) none) target linkPath with
      | .ok _ => (none : Option JsError)
      | .error e => some e) = some e → e = .sys code →
      parentError env.path (fs.set (env.path.resolve [linkPath]) none)
        (env.path.resolve [linkPath]) = none ∧ env.symlinkError = some code := by
    intro e he hec
    unfold symlinkSync at he
    simp only [set_same] at he
    cases hpe : parentError env.path (fs.set (env.path.resolve [linkPath]) none)
        (env.path.resolve [linkPath]) with
    | some e2 =>
      simp only [hpe, Option.some.injEq] at he
      exact absurd (he.trans hec) (hne e2 hpe)
    | none =>
      simp only [hpe] at he
      cases hp : env.symlinkError with
      | none => simp [hp] at he
      | some c0 =>
        simp only [hp, Option.some.injEq] at he
        rw [hec] at he
        simp only [JsError.sys.injEq] at he
        exact ⟨rfl, by rw [he]⟩
  cases hex : existsSync env.path fs linkPath with
  | true =>
    cases hl : fs (env.path.resolve [linkPath]) with
    | none => exact absurd hl (entry_of_existsSync hex)
    | some node =>
      cases node with
      | file c2 m2 =>
        simp [symlinkAttempt, hex, lstatIsSymbolicLink, hl] at hfail
      | dir =>
        simp [symlinkAttempt, hex, lstatIsSymbolicLink, hl] at hfail
      | symlink t0 =>
        refine ⟨createSymlinkSafe_unlink env target linkPath fs t0 hl hex, ?_⟩
        simp only [symlinkAttempt, hex, if_true, lstatIsSymbolicLink, hl, unlinkSync, andThen,
          step] at hfail
        cases hs : symlinkSync env.path env.symlinkError
            (fs.set (env.path.resolve [linkPath]) none) target linkPath with
        | ok fs2 => simp [hs] at hfail
        | error e =>
          simp only [hs, Except.error.injEq] at hfail
          exact hfree e (by rw [hs]) hfail
  | false =>
    cases hl : fs (env.path.resolve [linkPath]) with
    | some node =>
      simp [symlinkAttempt, hex, andThen, step, symlinkSync, hl] at hfail
      exact absurd hfail.symm hEEXIST
    | none =>
      rw [set_none_of_none hl] at hfree ⊢
      refine ⟨rfl, ?_⟩
      simp only [symlinkAttempt, hex, Bool.false_eq_true, if_false, andThen, step] at hfail
      cases hs : symlinkSync env.path env.symlinkError fs target linkPath with
      | ok fs2 => simp [hs] at hfail
      | error e =>
        simp only [hs, Except.error.injEq] at hfail
        exact hfree e (by rw [hs]) hfail

/-- On a live symbolic link, where the platform creates links, `createSymlinkSafe` replaces the
link by one whose stored target is `target`. -/
theorem createSymlinkSafe_refreshes_live_link (env : Env) (target linkPath : String) (fs : FS)
    (t0 : String) (hl : fs (env.path.resolve [linkPath]) = some (.symlink t0))
    (hex : existsSync env.path fs linkPath = true) (hplat : env.symlinkError = none)
    (hpar : parentError env.path (fs.set (env.path.resolve [linkPath]) none)
      (env.path.resolve [linkPath]) = none) :
    createSymlinkSafe env target linkPath fs =
      (true, fs.set (env.path.resolve [linkPath]) (some (.symlink target))) := by
  rw [createSymlinkSafe_unlink env target linkPath fs t0 hl hex,
    (createSymlinkSafe_free env target linkPath _ (set_same _ _ _) hpar).1 hplat, set_set]

/-! ## What a normal return of `upgradeFrameProject` establishes -/

/-- When the loop over the wrappers returns, every wrapper existed and was reported as skipped;
nothing was created. -/
theorem wrapperLoop_ok (env : Env) (tpl : Templates) (binDirPath : String) :
    ∀ (tools : List Tool) (created skipped : List String) (fs : FS) (r : UpgradeResult),
      (wrapperLoop env tpl binDirPath tools created skipped fs).1 = .ok r →
      (∀ t ∈ tools, existsSync env.path fs (env.path.join [binDirPath, wrapperFileName t]) = true) ∧
      r = ⟨created, skipped ++ tools.map (fun t => ".frame/bin/" ++ wrapperFileName t)⟩ := by
  intro tools
  induction tools with
  | nil =>
    intro created skipped fs r h
    simp only [wrapperLoop, Except.ok.injEq] at h
    subst h
    exact ⟨fun t ht => (by cases ht), (by simp)⟩
  | cons tool rest ih =>
    intro created skipped fs r h
    unfold wrapperLoop at h
    simp only at h
    cases hne : existsSync env.path fs (env.path.join [binDirPath, wrapperFileName tool]) with
    | true =>
      simp only [hne, if_true] at h
      obtain ⟨h1, h2⟩ := ih _ _ _ _ h
      refine ⟨?_, ?_⟩
      · intro t ht
        rcases List.mem_cons.mp ht with rfl | hmem
        · exact hne
        · exact h1 t hmem
      · rw [h2]
        simp
    | false =>
      simp only [hne, Bool.false_eq_true, if_false, getWrapperScriptTemplateCall] at h
      cases h

/-- When `createWrapperScripts` returns, it has at most created the bin directory, and every
tool that needs a wrapper had one, reported as skipped. -/
theorem createWrapperScripts_ok (env : Env) (tpl : Templates) (cfg : ToolConfig)
    (projectPath : String) (fs fs1 : FS) (w : UpgradeResult)
    (h : createWrapperScripts env tpl cfg projectPath fs = (.ok w, fs1)) :
    (∀ t ∈ getToolsRequiringWrapper cfg,
      existsSync env.path fs1 (wrapperPathOf env projectPath t) = true) ∧
    w.skipped = wrapperReports cfg ∧
    (w.created = [] ∨ w.created = [".frame/bin/"]) := by
  unfold createWrapperScripts at h
  simp only at h
  split at h
  · next hlen =>
    simp only [Prod.mk.injEq, Except.ok.injEq] at h
    obtain ⟨hw, _⟩ := h
    subst hw
    have hnil : getToolsRequiringWrapper cfg = [] := List.length_eq_zero.mp hlen
    refine ⟨?_, ?_, Or.inl rfl⟩
    · intro t ht
      rw [hnil] at ht
      cases ht
    · simp [wrapperReports, hnil]
  · split at h
    · obtain ⟨_, s, _, hk⟩ := andThen_ok_inv h
      have hfs : fs1 = s := by
        have := congrArg Prod.snd hk
        rw [wrapperLoop_fs] at this
        exact this.symm
      subst hfs
      obtain ⟨h1, h2⟩ := wrapperLoop_ok env tpl _ _ _ _ _ w (by rw [hk])
      exact ⟨h1, by rw [h2]; simp [wrapperReports], Or.inr (by rw [h2])⟩
    · have hfs : fs1 = fs := by
        have := congrArg Prod.snd h
        rw [wrapperLoop_fs] at this
        exact this.symm
      subst hfs
      obtain ⟨h1, h2⟩ := wrapperLoop_ok env tpl _ _ _ _ _ w (by rw [h])
      exact ⟨h1, by rw [h2]; simp [wrapperReports], Or.inl (by rw [h2])⟩

/-- When the loop over the root files returns, each of them exists. -/
theorem rootFileLoop_ok (env : Env) :
    ∀ (files : List RootFile) (created skipped : List String) (fs fs1 : FS) (r : UpgradeResult),
      rootFileLoop env files created skipped fs = (.ok r, fs1) →
      ∀ f ∈ files, existsSync env.path fs1 f.path = true := by
  intro files
  induction files with
  | nil => intro created skipped fs fs1 r _ f hf; cases hf
  | cons file rest ih =>
    intro created skipped fs fs1 r h f hf
    unfold rootFileLoop at h
    cases hne : existsSync env.path fs file.path with
    | true =>
      simp only [hne, if_true] at h
      rcases List.mem_cons.mp hf with rfl | hmem
      · have hx : Extends fs fs1 := by
          have := rootFileLoop_extends env rest created (skipped ++ [f.name]) fs
          rw [h] at this
          exact this
        exact existsSync_of_extends hx hne
      · exact ih _ _ _ _ _ h f hmem
    | false =>
      simp only [hne, Bool.false_eq_true, if_false] at h
      cases ht : file.template with
      | error e => simp only [ht, Prod.mk.injEq] at h; cases h.1
      | ok content =>
        simp only [ht] at h
        cases hw : writeFileSync env.path env.umask fs file.path (contentStr env content) 438 with
        | error e => simp only [hw, Prod.mk.injEq] at h; cases h.1
        | ok fs2 =>
          simp only [hw] at h
          rcases List.mem_cons.mp hf with rfl | hmem
          · have hx : Extends fs2 fs1 := by
              have := rootFileLoop_extends env rest (created ++ [f.name]) skipped fs2
              rw [h] at this
              exact this
            exact existsSync_of_extends hx (existsSync_after_write hw)
          · exact ih _ _ _ _ _ h f hmem

/-- A normal return of `upgradeFrameProject` in its parts: the wrapper pass and the loop over
the root files returned, and the rest only added entries. -/
theorem upgradeFrameProject_ok_inv (env : Env) (tpl : Templates) (cfg : ToolConfig)
    (projectPath : String) (fs fs1 : FS) (r : UpgradeResult)
    (h : upgradeFrameProject env tpl cfg projectPath fs = (.ok r, fs1)) :
    ∃ w s1 r2 s2, createWrapperScripts env tpl cfg projectPath fs = (.ok w, s1) ∧
      rootFileLoop env (filesToCreate env tpl projectPath (upgradeName env fs projectPath))
        w.created w.skipped s1 = (.ok r2, s2) ∧
      Extends s2 fs1 := by
  unfold upgradeFrameProject at h
  split at h
  · simp only [Prod.mk.injEq] at h; cases h.1
  · obtain ⟨w, s1, hw, h⟩ := andThen_ok_inv h
    obtain ⟨r2, s2, hl, h⟩ := andThen_ok_inv h
    refine ⟨w, s1, r2, s2, hw, hl, ?_⟩
    simp only at h
    cases hne : existsSync env.path s2 (env.path.join [projectPath, env.consts.CLAUDE_SYMLINK]) with
    | true =>
      simp only [hne, Bool.not_true, Bool.false_eq_true, if_false, Prod.mk.injEq] at h
      rw [← h.2]
      exact Extends.refl _
    | false =>
      simp only [hne, Bool.not_false, if_true, Prod.mk.injEq] at h
      rw [← h.2]
      exact createSymlinkSafe_extends env _ _ s2 hne

/-- After a normal return of `upgradeFrameProject` every tool that needs a wrapper has one, and
each of the five root files exists. -/
theorem upgradeFrameProject_ok_exists (env : Env) (tpl : Templates) (cfg : ToolConfig)
    (projectPath : String) (fs fs1 : FS) (r : UpgradeResult)
    (h : upgradeFrameProject env tpl cfg projectPath fs = (.ok r, fs1)) :
    (∀ t ∈ getToolsRequiringWrapper cfg,
      existsSync env.path fs1 (wrapperPathOf env projectPath t) = true) ∧
    (∀ f ∈ filesToCreate env tpl projectPath (upgradeName env fs projectPath),
      existsSync env.path fs1 f.path = true) := by
  obtain ⟨w, s1, r2, s2, hw, hl, hx⟩ := upgradeFrameProject_ok_inv env tpl cfg projectPath fs fs1 r h
  have hx1 : Extends s1 s2 := by
    have := rootFileLoop_extends env
      (filesToCreate env tpl projectPath (upgradeName env fs projectPath)) w.created w.skipped s1
    rw [hl] at this
    exact this
  refine ⟨?_, ?_⟩
  · intro t ht
    exact existsSync_of_extends (hx1.trans hx)
      ((createWrapperScripts_ok env tpl cfg projectPath fs s1 w hw).1 t ht)
  · intro f hf
    exact existsSync_of_extends hx (rootFileLoop_ok env _ _ _ _ _ _ hl f hf)

/-! ## A second run of `upgradeFrameProject` -/

/-- After a successful `mkdirSync` the path exists. -/
theorem existsSync_after_mkdir {lib : PathLib} {fs fs1 : FS} {p : String}
    (h : mkdirSync lib fs p = .ok fs1) : existsSync lib fs1 p = true := by
  unfold mkdirSync at h
  rw [show (lib.resolve [p]).length + 1 = (lib.resolve [p]).length.succ from rfl] at h
  unfold mkdirAt at h
  cases hk : fs (lib.resolve [p]) with
  | none =>
    simp only [hk] at h
    have hset : ∀ s : FS, existsSync lib (s.set (lib.resolve [p]) (some .dir)) p = true := by
      intro s
      simp [existsSync, follow, linkFuel, set_same]
    split at h
    · simp only [Except.ok.injEq] at h
      subst h
      exact hset _
    · split at h
      · simp only [Except.ok.injEq] at h
        subst h
        exact hset _
      · cases h
  | some node =>
    cases node with
    | dir =>
      simp only [hk, Except.ok.injEq] at h
      subst h
      simp [existsSync, follow, linkFuel, hk]
    | file c m => simp only [hk] at h; cases h
    | symlink t =>
      simp only [hk] at h
      split at h
      · next r hr =>
        split at h
        · next hdir =>
          simp only [Except.ok.injEq] at h
          subst h
          unfold existsSync
          simp only [hr, hdir]
          rfl
        · cases h
      · cases h

theorem existsSync_after_copy {lib : PathLib} {fs fs1 : FS} {src dest : String}
    (h : copyFileSync lib fs src dest = .ok fs1) : existsSync lib fs1 dest = true := by
  unfold copyFileSync at h
  split at h
  · cases h
  · split at h
    · exact existsSync_of_read (readFileSync_after_store h)
    · cases h
    · cases h
    · cases h

/-- Called on a path that does not exist, `createSymlinkSafe` changes nothing, or stores the
link, or leaves a path that exists. -/
theorem createSymlinkSafe_cases (env : Env) (target linkPath : String) (fs : FS)
    (hne : existsSync env.path fs linkPath = false) :
    (createSymlinkSafe env target linkPath fs).2 = fs ∨
    (fs (env.path.resolve [linkPath]) = none ∧
      (createSymlinkSafe env target linkPath fs).2 =
        fs.set (env.path.resolve [linkPath]) (some (.symlink target))) ∨
    existsSync env.path (createSymlinkSafe env target linkPath fs).2 linkPath = true := by
  unfold createSymlinkSafe symlinkAttempt
  simp only [hne, Bool.false_eq_true, if_false]
  unfold andThen step
  cases hs : symlinkSync env.path env.symlinkError fs target linkPath with
  | ok fs1 =>
    right; left
    unfold symlinkSync at hs
    cases hl : fs (env.path.resolve [linkPath]) with
    | some node => simp only [hl] at hs; cases hs
    | none =>
      simp only [hl] at hs
      cases hpe : parentError env.path fs (env.path.resolve [linkPath]) with
      | some e => simp only [hpe] at hs; cases hs
      | none =>
        simp only [hpe] at hs
        cases hp : env.symlinkError with
        | some code => simp only [hp] at hs; cases hs
        | none =>
          simp only [hp, Except.ok.injEq] at hs
          exact ⟨rfl, hs.symm⟩
  | error e =>
    simp only
    split
    · split
      · cases hc : copyFileSync env.path fs
            (env.path.resolve [env.path.dirname linkPath, target]) linkPath with
        | ok fs2 => right; right; exact existsSync_after_copy hc
        | error e2 => left; rfl
      · left; rfl
    · left; rfl

/-- A second `createSymlinkSafe` on a path that still does not exist changes nothing. -/
theorem createSymlinkSafe_again (env : Env) (target linkPath : String) (fs : FS)
    (hne : existsSync env.path fs linkPath = false)
    (hne2 : existsSync env.path (createSymlinkSafe env target linkPath fs).2 linkPath = false) :
    (createSymlinkSafe env target linkPath (createSymlinkSafe env target linkPath fs).2).2 =
      (createSymlinkSafe env target linkPath fs).2 := by
  rcases createSymlinkSafe_cases env target linkPath fs hne with h | ⟨_, h⟩ | h
  · rw [h, h]
  · rw [h] at hne2 ⊢
    simp [createSymlinkSafe, symlinkAttempt, hne2, andThen, step, symlinkSync, set_same,
      JsError.code]
  · rw [h] at hne2; cases hne2

/-- When every wrapper exists, the loop over the wrappers reports each as skipped. -/
theorem wrapperLoop_all_exist (env : Env) (tpl : Templates) (binDirPath : String) (fs : FS) :
    ∀ (tools : List Tool) (created skipped : List String),
      (∀ t ∈ tools, existsSync env.path fs (env.path.join [binDirPath, wrapperFileName t]) = true) →
      wrapperLoop env tpl binDirPath tools created skipped fs =
        (.ok ⟨created, skipped ++ tools.map (fun t => ".frame/bin/" ++ wrapperFileName t)⟩, fs) := by
  intro tools
  induction tools with
  | nil => intro created skipped _; simp [wrapperLoop]
  | cons tool rest ih =>
    intro created skipped hall
    unfold wrapperLoop
    simp only [hall tool (List.mem_cons_self _ _), if_true]
    rw [ih _ _ (fun t ht => hall t (List.mem_cons_of_mem _ ht))]
    simp

/-- When every root file exists, the loop over them reports each as skipped. -/
theorem rootFileLoop_all_exist (env : Env) (fs : FS) :
    ∀ (files : List RootFile) (created skipped : List String),
      (∀ f ∈ files, existsSync env.path fs f.path = true) →
      rootFileLoop env files created skipped fs =
        (.ok ⟨created, skipped ++ files.map RootFile.name⟩, fs) := by
  intro files
  induction files with
  | nil => intro created skipped _; simp [rootFileLoop]
  | cons file rest ih =>
    intro created skipped hall
    unfold rootFileLoop
    simp only [hall file (List.mem_cons_self _ _), if_true]
    rw [ih _ _ (fun f hf => hall f (List.mem_cons_of_mem _ hf))]
    simp

theorem filesToCreate_paths (env : Env) (tpl : Templates) (projectPath : String) (name : Json) :
    (filesToCreate env tpl projectPath name).map RootFile.path =
      [env.path.join [projectPath, env.consts.AGENTS],
       env.path.join [projectPath, env.consts.STRUCTURE],
       env.path.join [projectPath, env.consts.NOTES],
       env.path.join [projectPath, env.consts.TASKS],
       env.path.join [projectPath, env.consts.QUICKSTART]] := rfl

/-- When `createWrapperScripts` returns with tools to wrap, the bin directory exists. -/
theorem createWrapperScripts_ok_bin (env : Env) (tpl : Templates) (cfg : ToolConfig)
    (projectPath : String) (fs fs1 : FS) (w : UpgradeResult)
    (h : createWrapperScripts env tpl cfg projectPath fs = (.ok w, fs1))
    (hlen : (getToolsRequiringWrapper cfg).length ≠ 0) :
    existsSync env.path fs1 (binDirPath env projectPath) = true := by
  unfold createWrapperScripts at h
  simp only [hlen, if_false] at h
  unfold binDirPath
  cases hb : existsSync env.path fs
      (env.path.join [projectPath, env.consts.FRAME_DIR, env.consts.FRAME_BIN_DIR]) with
  | true =>
    simp only [hb, Bool.not_true, Bool.false_eq_true, if_false] at h
    have hfs : fs1 = fs := by
      have := congrArg Prod.snd h
      rw [wrapperLoop_fs] at this
      exact this.symm
    rw [hfs]
    exact hb
  | false =>
    simp only [hb, Bool.not_false, if_true] at h
    obtain ⟨_, s, hstep, hk⟩ := andThen_ok_inv h
    have hfs : fs1 = s := by
      have := congrArg Prod.snd hk
      rw [wrapperLoop_fs] at this
      exact this.symm
    rw [hfs]
    unfold step at hstep
    cases hm : mkdirSync env.path fs
        (env.path.join [projectPath, env.consts.FRAME_DIR, env.consts.FRAME_BIN_DIR]) with
    | error e => simp only [hm, Prod.mk.injEq] at hstep; cases hstep.1
    | ok fs2 =>
      simp only [hm, Prod.mk.injEq] at hstep
      rw [← hstep.2]
      exact existsSync_after_mkdir hm

/-- When the bin directory and every wrapper exist, `createWrapperScripts` changes nothing and
reports every wrapper as skipped. -/
theorem createWrapperScripts_all_exist (env : Env) (tpl : Templates) (cfg : ToolConfig)
    (projectPath : String) (fs : FS)
    (hbin : (getToolsRequiringWrapper cfg).length ≠ 0 →
      existsSync env.path fs (binDirPath env projectPath) = true)
    (hall : ∀ t ∈ getToolsRequiringWrapper cfg,
      existsSync env.path fs (wrapperPathOf env projectPath t) = true) :
    createWrapperScripts env tpl cfg projectPath fs = (.ok ⟨[], wrapperReports cfg⟩, fs) := by
  unfold createWrapperScripts
  unfold binDirPath at hbin
  unfold wrapperPathOf binDirPath at hall
  simp only
  by_cases hlen : (getToolsRequiringWrapper cfg).length = 0
  · simp only [hlen, if_true, wrapperReports]
    rw [List.length_eq_zero.mp hlen]
    rfl
  · simp only [hlen, if_false, hbin hlen, Bool.not_true, Bool.false_eq_true]
    rw [wrapperLoop_all_exist env tpl _ fs _ [] [] hall]
    simp [wrapperReports]

/-- A second `upgradeFrameProject` (whatever the templates then produce) leaves the filesystem
of the first as it is, reports every wrapper and root file as skipped, and reports `CLAUDE.md`
as skipped if it exists and as created if it does not. -/
theorem upgradeFrameProject_again (env : Env) (tpl tpl2 : Templates) (cfg : ToolConfig)
    (projectPath : String) (fs fs1 : FS) (r1 : UpgradeResult)
    (h : upgradeFrameProject env tpl cfg projectPath fs = (.ok r1, fs1)) :
    upgradeFrameProject env tpl2 cfg projectPath fs1 =
      (.ok (if existsSync env.path fs1 (env.path.join [projectPath, env.consts.CLAUDE_SYMLINK]) = true
          then ⟨[], wrapperReports cfg ++
            ["AGENTS.md", "STRUCTURE.json", "PROJECT_NOTES.md", "tasks.json", "QUICKSTART.md"] ++
            ["CLAUDE.md"]⟩
          else ⟨["CLAUDE.md (symlink)"], wrapperReports cfg ++
            ["AGENTS.md", "STRUCTURE.json", "PROJECT_NOTES.md", "tasks.json", "QUICKSTART.md"]⟩),
        fs1) := by
  have hfp : isFrameProject env fs projectPath = true := by
    cases hf : isFrameProject env fs projectPath with
    | true => rfl
    | false =>
      simp only [upgradeFrameProject, hf, Bool.not_false, if_true, Prod.mk.injEq] at h
      cases h.1
  obtain ⟨w, sA, rr, sB, hw, hl, hxB1⟩ :=
    upgradeFrameProject_ok_inv env tpl cfg projectPath fs fs1 r1 h
  have hxA : Extends fs sA := by
    have := createWrapperScripts_extends env tpl cfg projectPath fs
    rw [hw] at this
    exact this
  have hxB : Extends sA sB := by
    have := rootFileLoop_extends env (filesToCreate env tpl projectPath
      (upgradeName env fs projectPath)) w.created w.skipped sA
    rw [hl] at this
    exact this
  have hlast : (existsSync env.path sB (env.path.join [projectPath, env.consts.CLAUDE_SYMLINK])
        = false ∧ fs1 = (createSymlinkSafe env env.consts.AGENTS
          (env.path.join [projectPath, env.consts.CLAUDE_SYMLINK]) sB).2) ∨
      (existsSync env.path sB (env.path.join [projectPath, env.consts.CLAUDE_SYMLINK]) = true ∧
        fs1 = sB) := by
    unfold upgradeFrameProject at h
    simp only [hfp, Bool.not_true, Bool.false_eq_true, if_false] at h
    unfold andThen at h
    simp only [hw, hl] at h
    cases hne : existsSync env.path sB (env.path.join [projectPath, env.consts.CLAUDE_SYMLINK]) with
    | true =>
      simp only [hne, Bool.not_true, Bool.false_eq_true, if_false, Prod.mk.injEq] at h
      exact Or.inr ⟨rfl, h.2.symm⟩
    | false =>
      simp only [hne, Bool.not_false, if_true, Prod.mk.injEq] at h
      exact Or.inl ⟨rfl, h.2.symm⟩
  have hfp1 : isFrameProject env fs1 projectPath = true :=
    existsSync_of_extends (hxA.trans (hxB.trans hxB1)) hfp
  have hwr := createWrapperScripts_all_exist env tpl2 cfg projectPath fs1
    (fun hne => existsSync_of_extends (hxB.trans hxB1)
      (createWrapperScripts_ok_bin env tpl cfg projectPath fs sA w hw hne))
    (fun t ht => existsSync_of_extends (hxB.trans hxB1)
      ((createWrapperScripts_ok env tpl cfg projectPath fs sA w hw).1 t ht))
  have hroot : ∀ f ∈ filesToCreate env tpl2 projectPath (upgradeName env fs1 projectPath),
      existsSync env.path fs1 f.path = true := by
    intro f hf
    have hmem : f.path ∈ (filesToCreate env tpl projectPath
        (upgradeName env fs projectPath)).map RootFile.path := by
      rw [filesToCreate_paths, ← filesToCreate_paths env tpl2 projectPath
        (upgradeName env fs1 projectPath)]
      exact List.mem_map_of_mem _ hf
    obtain ⟨f1, hf1, hpath⟩ := List.mem_map.mp hmem
    rw [← hpath]
    exact existsSync_of_extends hxB1 (rootFileLoop_ok env _ _ _ _ _ _ hl f1 hf1)
  have hrl := rootFileLoop_all_exist env fs1 _ [] (wrapperReports cfg) hroot
  have hnames : (filesToCreate env tpl2 projectPath (upgradeName env fs1 projectPath)).map
      RootFile.name =
      ["AGENTS.md", "STRUCTURE.json", "PROJECT_NOTES.md", "tasks.json", "QUICKSTART.md"] := rfl
  rw [hnames] at hrl
  unfold upgradeFrameProject
  simp only [hfp1, Bool.not_true, Bool.false_eq_true, if_false]
  unfold andThen
  simp only [hwr, hrl]
  cases hex : existsSync env.path fs1 (env.path.join [projectPath, env.consts.CLAUDE_SYMLINK]) with
  | true => simp
  | false =>
    simp only [Bool.not_false, if_true, Bool.false_eq_true, if_false, List.nil_append]
    rcases hlast with ⟨hne, hfs⟩ | ⟨hyes, hfs⟩
    · have := createSymlinkSafe_again env env.consts.AGENTS
        (env.path.join [projectPath, env.consts.CLAUDE_SYMLINK]) sB hne (by rw [← hfs]; exact hex)
      rw [← hfs] at this
      rw [this]
    · rw [hfs] at hex
      rw [hex] at hyes
      cases hyes

/-! ## Claims -/

/-- C1: on a scaffolded project `upgradeFrameProject` leaves every existing entry as it was, so
every file that could be read before (each root file, the config file, each wrapper script) reads
the same afterwards; and when it returns, each of the five root files `AGENTS.md`,
`STRUCTURE.json`, `PROJECT_NOTES.md`, `tasks.json`, `QUICKSTART.md` that existed before the call
is named in `skipped`. -/
theorem upgrade_leaves_existing_files (env : Env) (tpl : Templates) (cfg : ToolConfig)
    (projectPath : String) (fs : FS) (h : isFrameProject env fs projectPath = true) :
    (∀ q n, fs q = some n → (upgradeFrameProject env tpl cfg projectPath fs).2 q = some n) ∧
    (∀ q c, readFileSync env.path fs q = .ok c →
      readFileSync env.path (upgradeFrameProject env tpl cfg projectPath fs).2 q = .ok c) ∧
    (filesToCreate env tpl projectPath (upgradeName env fs projectPath)).map RootFile.name =
      ["AGENTS.md", "STRUCTURE.json", "PROJECT_NOTES.md", "tasks.json", "QUICKSTART.md"] ∧
    (∀ r, (upgradeFrameProject env tpl cfg projectPath fs).1 = .ok r →
      ∀ f ∈ filesToCreate env tpl projectPath (upgradeName env fs projectPath),
        existsSync env.path fs f.path = true → f.name ∈ r.skipped) := by
  have hx := upgradeFrameProject_extends env tpl cfg projectPath fs
  refine ⟨hx, fun q c hc => readFileSync_of_extends hx hc, rfl, ?_⟩
  intro r hr f hf hex
  unfold upgradeFrameProject at hr
  simp only [h, Bool.not_true, Bool.false_eq_true, if_false] at hr
  unfold andThen at hr
  cases hw : createWrapperScripts env tpl cfg projectPath fs with
  | mk wres fs1 =>
    have hx1 : Extends fs fs1 := by
      have := createWrapperScripts_extends env tpl cfg projectPath fs
      rw [hw] at this
      exact this
    cases wres with
    | error e => simp only [hw] at hr; cases hr
    | ok w =>
      simp only [hw] at hr
      cases hl : rootFileLoop env (filesToCreate env tpl projectPath (upgradeName env fs projectPath))
          w.created w.skipped fs1 with
      | mk lres fs2 =>
        cases lres with
        | error e => simp only [hl] at hr; cases hr
        | ok r2 =>
          simp only [hl] at hr
          have hsk := (rootFileLoop_skipped env _ _ _ fs1 r2 (by rw [hl])).2 f hf
            (existsSync_of_extends hx1 hex)
          split at hr
          · simp only [Except.ok.injEq] at hr
            subst hr
            exact hsk
          · simp only [Except.ok.injEq] at hr
            subst hr
            exact List.mem_append_left _ hsk

/-- Run of C1 on a project with an edited `AGENTS.md`. -/
theorem upgrade_leaves_existing_files_witness :
    isFrameProject (posixEnv none) editedProject "/p" = true ∧
    readFileSync (posixPath "/")
      (upgradeFrameProject (posixEnv none) sampleTemplates defaultToolConfig "/p" editedProject).2
      "/p/AGENTS.md" = .ok "my own instructions" ∧
    ((upgradeFrameProject (posixEnv none) sampleTemplates defaultToolConfig "/p" editedProject).1 =
      .ok ⟨["STRUCTURE.json", "PROJECT_NOTES.md", "tasks.json", "QUICKSTART.md",
            "CLAUDE.md (symlink)"], [".frame/bin/codex", "AGENTS.md"]⟩) :=
  ⟨by decide,
   (upgrade_leaves_existing_files (posixEnv none) sampleTemplates defaultToolConfig "/p"
      editedProject (by decide)).2.1 "/p/AGENTS.md" "my own instructions" (by decide),
   by decide⟩

/-- C2, evaluated where it fails: on a scaffolded project with the `codex` wrapper and
`AGENTS.md` in place, whose `CLAUDE.md` is a dangling symbolic link, the first
`upgradeFrameProject` returns normally, yet the second run again reports `CLAUDE.md (symlink)`
under `created` and does not list `CLAUDE.md` under `skipped`, while `CLAUDE.md` still does not
exist. -/
theorem upgrade_twice_reports_created :
    isFrameProject (posixEnv none) danglingLinkProject "/p" = true ∧
    (upgradeFrameProject (posixEnv none) sampleTemplates defaultToolConfig "/p"
        danglingLinkProject).1 =
      .ok ⟨["STRUCTURE.json", "PROJECT_NOTES.md", "tasks.json", "QUICKSTART.md",
            "CLAUDE.md (symlink)"], [".frame/bin/codex", "AGENTS.md"]⟩ ∧
    (upgradeFrameProject (posixEnv none) sampleTemplates defaultToolConfig "/p"
        (upgradeFrameProject (posixEnv none) sampleTemplates defaultToolConfig "/p"
          danglingLinkProject).2).1 =
      .ok ⟨["CLAUDE.md (symlink)"],
           [".frame/bin/codex", "AGENTS.md", "STRUCTURE.json", "PROJECT_NOTES.md", "tasks.json",
            "QUICKSTART.md"]⟩ ∧
    existsSync (posixPath "/")
      (upgradeFrameProject (posixEnv none) sampleTemplates defaultToolConfig "/p"
        (upgradeFrameProject (posixEnv none) sampleTemplates defaultToolConfig "/p"
          danglingLinkProject).2).2 "/p/CLAUDE.md" = false := by
  decide

/-- C3: for a tool id registered in the merged registry, `getExecutableCommand` returns the
wrapper path `<projectPath>/<FRAME_DIR>/<FRAME_BIN_DIR>/<wrapperName or command>` when the tool
needs a wrapper, a project path is supplied and that path exists, and the tool's native
`command` in every other case; in particular always `command` when `needsWrapper` is false.
(An empty `projectPath` or `wrapperName` counts as not supplied.)  The function takes the
filesystem and the registry as inputs and returns only the string. -/
theorem getExecutableCommand_resolves (env : Env) (cfg : ToolConfig) (fs : FS) (toolId : String)
    (projectPath : Option String) (t : Tool)
    (h : lookupField toolId (getAvailableTools cfg) = some t) :
    getExecutableCommand env cfg fs toolId projectPath =
      some (match truthyString projectPath with
        | some pp =>
          if t.needsWrapper = true ∧ existsSync env.path fs
              (env.path.join [pp, env.consts.FRAME_DIR, env.consts.FRAME_BIN_DIR,
                wrapperFileName t]) = true
          then env.path.join [pp, env.consts.FRAME_DIR, env.consts.FRAME_BIN_DIR, wrapperFileName t]
          else t.command
        | none => t.command) ∧
    (t.needsWrapper = false →
      getExecutableCommand env cfg fs toolId projectPath = some t.command) ∧
    (∀ pp, truthyString projectPath = some pp →
      t.command ≠ env.path.join [pp, env.consts.FRAME_DIR, env.consts.FRAME_BIN_DIR,
        wrapperFileName t] →
      (getExecutableCommand env cfg fs toolId projectPath =
          some (env.path.join [pp, env.consts.FRAME_DIR, env.consts.FRAME_BIN_DIR,
            wrapperFileName t]) ↔
        (t.needsWrapper = true ∧ existsSync env.path fs
          (env.path.join [pp, env.consts.FRAME_DIR, env.consts.FRAME_BIN_DIR,
            wrapperFileName t]) = true))) ∧
    (t.wrapperName = none → wrapperFileName t = t.command) ∧
    (∀ w, t.wrapperName = some w → w ≠ "" → wrapperFileName t = w) := by
  have hp : getProp (getAvailableTools cfg) toolId = .own t := by
    simp only [getProp, h]
  have hname : (match truthyString t.wrapperName with
      | some w => some w
      | none => some t.command) = some (wrapperFileName t) := by
    unfold wrapperFileName
    cases truthyString t.wrapperName <;> rfl
  have hmain : getExecutableCommand env cfg fs toolId projectPath =
      some (match truthyString projectPath with
        | some pp =>
          if t.needsWrapper = true ∧ existsSync env.path fs
              (env.path.join [pp, env.consts.FRAME_DIR, env.consts.FRAME_BIN_DIR,
                wrapperFileName t]) = true
          then env.path.join [pp, env.consts.FRAME_DIR, env.consts.FRAME_BIN_DIR, wrapperFileName t]
          else t.command
        | none => t.command) := by
    unfold getExecutableCommand
    simp only [hp, JsProp.orElse, JsProp.truthy, if_true, JsProp.needsWrapper, JsProp.command,
      JsProp.wrapperName, hname]
    cases hn : t.needsWrapper with
    | false => cases truthyString projectPath <;> simp
    | true =>
      cases truthyString projectPath with
      | none => simp
      | some pp =>
        simp only [Bool.not_true, Bool.false_eq_true, if_false, true_and]
        split <;> rfl
  refine ⟨hmain, ?_, ?_, ?_, ?_⟩
  · intro hn
    unfold getExecutableCommand
    simp [hp, JsProp.orElse, JsProp.truthy, JsProp.needsWrapper, JsProp.command, hn]
  · intro pp hpp hne
    rw [hmain, hpp]
    simp only [Option.some.injEq]
    constructor
    · intro heq
      by_contra hcond
      rw [if_neg hcond] at heq
      exact hne heq
    · intro hcond
      rw [if_pos hcond]
  · intro hw
    simp [wrapperFileName, truthyString, hw]
  · intro w hw hne
    simp [wrapperFileName, truthyString, hw, hne]

/-- Run of C3: with the built-in registry, `codex` resolves to its wrapper in a project that has
one, and to the native command in a project without one. -/
theorem getExecutableCommand_resolves_witness :
    lookupField "codex" (getAvailableTools defaultToolConfig) = lookupField "codex" AI_TOOLS ∧
    getExecutableCommand (posixEnv none) defaultToolConfig editedProject "codex" (some "/p") =
      some "/p/.frame/bin/codex" ∧
    getExecutableCommand (posixEnv none) defaultToolConfig configOnlyProject "codex" (some "/p") =
      some "codex" :=
  ⟨by decide,
   ((getExecutableCommand_resolves (posixEnv none) defaultToolConfig editedProject
      "codex" (some "/p") _ (by decide : lookupField "codex" (getAvailableTools defaultToolConfig) =
        some ⟨"codex", "Codex CLI", "codex", "OpenAI Codex CLI",
          [("review", ⟨"/review", "Review"⟩), ("model", ⟨"/model", "Switch Model"⟩),
           ("permissions", ⟨"/permissions", "Permissions"⟩), ("help", ⟨"/help", "Help"⟩)],
          "Codex Commands", false, true, some "codex"⟩)).1).trans (by decide),
   by decide⟩

/-- C6: when the config file is absent, `upgradeFrameProject` throws the
`Not a Frame project` error and leaves the filesystem exactly as it was. -/
theorem upgrade_requires_scaffold (env : Env) (tpl : Templates) (cfg : ToolConfig)
    (projectPath : String) (fs : FS) (h : isFrameProject env fs projectPath = false) :
    upgradeFrameProject env tpl cfg projectPath fs =
      (.error (.plain "Not a Frame project. Use Initialize instead."), fs) := by
  unfold upgradeFrameProject
  simp [h]

/-- Run of C6 on a directory without the hidden config file. -/
theorem upgrade_requires_scaffold_witness :
    isFrameProject (posixEnv none) agentsOnly "/p" = false ∧
    upgradeFrameProject (posixEnv none) sampleTemplates defaultToolConfig "/p" agentsOnly =
      (.error (.plain "Not a Frame project. Use Initialize instead."), agentsOnly) :=
  ⟨by decide,
   upgrade_requires_scaffold (posixEnv none) sampleTemplates defaultToolConfig "/p" agentsOnly
     (by decide)⟩

/-- C9: when a regular file is stored at `linkPath`, `createSymlinkSafe` returns false and leaves
the filesystem exactly as it was, so the file still has the content it had. -/
theorem createSymlinkSafe_keeps_regular_file (env : Env) (target linkPath : String) (fs : FS)
    (c : String) (m : Nat) (h : fs (env.path.resolve [linkPath]) = some (.file c m)) :
    createSymlinkSafe env target linkPath fs = (false, fs) ∧
    readFileSync env.path (createSymlinkSafe env target linkPath fs).2 linkPath = .ok c := by
  have hr : createSymlinkSafe env target linkPath fs = (false, fs) := by
    simp [createSymlinkSafe, symlinkAttempt, existsSync, follow, linkFuel, lstatIsSymbolicLink, h]
  refine ⟨hr, ?_⟩
  rw [hr]
  simp [readFileSync, follow, linkFuel, h]

/-- Run of C9: a regular `AGENTS.md` in the way of the link is left alone. -/
theorem createSymlinkSafe_keeps_regular_file_witness :
    agentsOnly ((posixPath "/").resolve ["/p/AGENTS.md"]) = some (.file "agents" 420) ∧
    createSymlinkSafe (posixEnv none) "OTHER.md" "/p/AGENTS.md" agentsOnly = (false, agentsOnly) :=
  ⟨by decide,
   (createSymlinkSafe_keeps_regular_file (posixEnv none) "OTHER.md" "/p/AGENTS.md" agentsOnly
     "agents" 420 (by decide)).1⟩

/-- C4, evaluated where it fails: on a project whose config file already exists with the user's
content, `initializeFrameProject` replaces that content by the freshly generated config (and
then throws, at its call of `templates.getAgentsTemplate`). -/
theorem initialize_rewrites_config :
    readFileSync (posixPath "/") editedProject "/p/.frame/config.json" = .ok "user config" ∧
    readFileSync (posixPath "/")
      (initializeFrameProject (posixEnv none) sampleTemplates defaultToolConfig "/p" (some "Demo")
        editedProject).fs "/p/.frame/config.json" = .ok demoConfigText ∧
    (initializeFrameProject (posixEnv none) sampleTemplates defaultToolConfig "/p" (some "Demo")
      editedProject).result = .error (notAFunction "getAgentsTemplate") :=
  ⟨by decide, by decide, rfl⟩

/-- C5, evaluated where it fails: in a project whose config path is a symbolic link to the
user's `AGENTS.md`, that file exists before the call with the user's content, and the
unconditional config write of `initializeFrameProject` lands on it: afterwards `AGENTS.md` holds
the generated config, and the link is still in place.  On a project with a regular config file
the user's `AGENTS.md` is kept, but the config file that was there is replaced, not merely a
missing file added. -/
theorem initialize_overwrites_linked_root_file :
    readFileSync (posixPath "/") linkedConfigProject "/p/AGENTS.md" = .ok "my own instructions" ∧
    isFrameProject (posixEnv none) linkedConfigProject "/p" = true ∧
    readFileSync (posixPath "/")
      (initializeFrameProject (posixEnv none) sampleTemplates defaultToolConfig "/p" (some "Demo")
        linkedConfigProject).fs "/p/AGENTS.md" = .ok demoConfigText ∧
    (initializeFrameProject (posixEnv none) sampleTemplates defaultToolConfig "/p" (some "Demo")
      linkedConfigProject).fs "/p/.frame/config.json" = some (.symlink "../AGENTS.md") ∧
    (initializeFrameProject (posixEnv none) sampleTemplates defaultToolConfig "/p" (some "Demo")
      editedProject).fs "/p/AGENTS.md" = some (.file "my own instructions" 420) ∧
    (initializeFrameProject (posixEnv none) sampleTemplates defaultToolConfig "/p" (some "Demo")
      editedProject).fs "/p/.frame/config.json" ≠ editedProject "/p/.frame/config.json" := by
  decide

/-- C7, evaluated where it fails: `constructor` is not the id of any registered descriptor, yet
`setActiveTool` returns true for it, makes it the active tool id and persists that. -/
theorem setActiveTool_accepts_inherited_key :
    lookupField "constructor" (getAvailableTools detachedManager.config) = none ∧
    (setActiveTool (posixEnv none) "constructor" detachedManager userData).1 = true ∧
    (setActiveTool (posixEnv none) "constructor" detachedManager userData).2.1.config.activeTool =
      "constructor" ∧
    readFileSync (posixPath "/")
      (setActiveTool (posixEnv none) "constructor" detachedManager userData).2.2
      "/u/ai-tool-config.json" =
      .ok (sampleStringifyConfig ⟨"constructor", []⟩) := by
  decide

/-- C8, evaluated where it fails: with the persisted active id `constructor`, which is not in the
registry, `getActiveTool` returns the member inherited from `Object.prototype`, which is neither
a tool descriptor nor the default registered under `claude`. -/
theorem getActiveTool_returns_inherited_member :
    lookupField "constructor" (getAvailableTools ⟨"constructor", []⟩) = none ∧
    getActiveTool ⟨"constructor", []⟩ = .inherited "constructor" ∧
    getActiveTool ⟨"constructor", []⟩ ≠ getProp (getAvailableTools ⟨"constructor", []⟩) "claude" := by
  decide

/-- C10 as stated fails: links are refused with `EPERM`, `CLAUDE.md` holds a symbolic link (no
regular file) and the target `AGENTS.md`, itself a link to `CLAUDE.md`, exists and is readable
before the call; the link call fails with `EPERM`, and `createSymlinkSafe` returns false and
leaves nothing readable at `CLAUDE.md`. -/
theorem createSymlinkSafe_fallback_loses_target :
    reverseLinkProject "/p/CLAUDE.md" = some (.symlink "notes.md") ∧
    readFileSync (posixPath "/") reverseLinkProject
      ((posixPath "/").resolve [(posixPath "/").dirname "/p/CLAUDE.md", "AGENTS.md"]) = .ok "N" ∧
    (symlinkAttempt (posixEnv (some "EPERM")) "AGENTS.md" "/p/CLAUDE.md" reverseLinkProject).1 =
      .error (.sys "EPERM") ∧
    (createSymlinkSafe (posixEnv (some "EPERM")) "AGENTS.md" "/p/CLAUDE.md" reverseLinkProject).1 =
      false ∧
    existsSync (posixPath "/")
      (createSymlinkSafe (posixEnv (some "EPERM")) "AGENTS.md" "/p/CLAUDE.md" reverseLinkProject).2
      "/p/CLAUDE.md" = false := by
  decide

/-- C10, amended: when the link call of `createSymlinkSafe` fails with `EPERM` or `EPROTO` and
the resolved target is a readable file once an existing link at `linkPath` is out of the way,
the call returns true and afterwards `linkPath` reads as the target's content, which the target
still has. -/
theorem createSymlinkSafe_copies_target (env : Env) (target linkPath : String) (fs : FS)
    (code c : String) (hclass : code = "EPERM" ∨ code = "EPROTO")
    (hfail : (symlinkAttempt env target linkPath fs).1 = .error (.sys code))
    (htarget : readFileSync env.path (fs.set (env.path.resolve [linkPath]) none)
      (env.path.resolve [env.path.dirname linkPath, target]) = .ok c) :
    (createSymlinkSafe env target linkPath fs).1 = true ∧
    readFileSync env.path (createSymlinkSafe env target linkPath fs).2 linkPath = .ok c ∧
    readFileSync env.path (createSymlinkSafe env target linkPath fs).2
      (env.path.resolve [env.path.dirname linkPath, target]) = .ok c := by
  obtain ⟨hsame, hpar, hplat⟩ := symlinkAttempt_refused env target linkPath fs code hclass hfail
  have hnone : (fs.set (env.path.resolve [linkPath]) none) (env.path.resolve [linkPath]) = none :=
    set_same fs _ none
  have hread := htarget
  unfold readFileSync at hread
  cases hs : follow env.path (fs.set (env.path.resolve [linkPath]) none) linkFuel
      (env.path.resolve [env.path.resolve [env.path.dirname linkPath, target]]) with
  | none => simp only [hs] at hread; cases hread
  | some s =>
    simp only [hs] at hread
    cases hfile : (fs.set (env.path.resolve [linkPath]) none) s with
    | none => simp only [hfile] at hread; cases hread
    | some node =>
      cases node with
      | dir => simp only [hfile] at hread; cases hread
      | symlink t => simp only [hfile] at hread; cases hread
      | file c2 m =>
        simp only [hfile, Except.ok.injEq] at hread
        subst hread
        rw [hsame, (createSymlinkSafe_free env target linkPath _ hnone hpar).2 code s c2 m hplat
          hclass hs hfile]
        refine ⟨rfl, ?_, ?_⟩
        · simp [readFileSync, follow, linkFuel, set_same]
        · exact readFileSync_of_extends (extends_set_of_none hnone _) htarget

/-- Run of the amended C10: with links refused, `CLAUDE.md` becomes a copy of `AGENTS.md`. -/
theorem createSymlinkSafe_copies_target_witness :
    (symlinkAttempt (posixEnv (some "EPERM")) "AGENTS.md" "/p/CLAUDE.md" agentsOnly).1 =
      .error (.sys "EPERM") ∧
    readFileSync (posixPath "/")
      (createSymlinkSafe (posixEnv (some "EPERM")) "AGENTS.md" "/p/CLAUDE.md" agentsOnly).2
      "/p/CLAUDE.md" = .ok "agents" :=
  ⟨by decide,
   (createSymlinkSafe_copies_target (posixEnv (some "EPERM")) "AGENTS.md" "/p/CLAUDE.md" agentsOnly
     "EPERM" "agents" (Or.inl rfl) (by decide) (by decide)).2.1⟩

/-- C13 as stated fails: a custom tool registered under the integer-like id `7` comes first in
the merged object, so `getToolsRequiringWrapper` lists it before the built-in `codex`. -/
theorem getToolsRequiringWrapper_custom_first :
    (getAvailableTools indexKeyConfig).map Prod.fst = ["7", "claude", "codex"] ∧
    (getToolsRequiringWrapper indexKeyConfig).map Tool.id = ["7", "codex"] := by
  decide

/-- C13, amended: `getToolsRequiringWrapper` returns exactly the descriptors of
`getAvailableTools` whose `needsWrapper` is true, one per registered id, in the property order
of the merged object; when the custom ids are distinct, none of them is integer-like and none
is a built-in id, that order is every built-in before every custom, customs in the order of
`customTools`. -/
theorem getToolsRequiringWrapper_order (cfg : ToolConfig) :
    getToolsRequiringWrapper cfg =
      ((getAvailableTools cfg).filter (fun e => e.2.needsWrapper)).map Prod.snd ∧
    ((getAvailableTools cfg).map Prod.fst).Nodup ∧
    ((cfg.customTools.map Prod.fst).Nodup →
      (∀ k ∈ cfg.customTools.map Prod.fst, arrayIndex k = none ∧ lookupField k AI_TOOLS = none) →
      getAvailableTools cfg = AI_TOOLS ++ cfg.customTools ∧
      getToolsRequiringWrapper cfg =
        (AI_TOOLS.map Prod.snd).filter (fun t => t.needsWrapper) ++
        (cfg.customTools.map Prod.snd).filter (fun t => t.needsWrapper)) := by
  refine ⟨?_, ?_, ?_⟩
  · unfold getToolsRequiringWrapper
    rw [List.filter_map]
    rfl
  · unfold getAvailableTools
    exact keys_spreadInto_nodup _ _ (by decide)
  · intro hnd hkeys
    have hobj : spreadInto [] cfg.customTools = cfg.customTools := by
      rw [spreadInto_append cfg.customTools [] hnd
        (fun k hk => ⟨(hkeys k hk).1, rfl⟩)]
      rfl
    have hall : getAvailableTools cfg = AI_TOOLS ++ cfg.customTools := by
      unfold getAvailableTools
      rw [hobj]
      exact spreadInto_append cfg.customTools AI_TOOLS hnd hkeys
    refine ⟨hall, ?_⟩
    unfold getToolsRequiringWrapper
    rw [hall, List.map_append, List.filter_append]

/-- Run of the amended C13 with one custom tool `aider`: `codex`, then `aider`. -/
theorem getToolsRequiringWrapper_order_witness :
    (aiderConfig.customTools.map Prod.fst).Nodup ∧
    (getToolsRequiringWrapper aiderConfig).map Tool.id = ["codex", "aider"] :=
  ⟨by decide, by
    rw [((getToolsRequiringWrapper_order aiderConfig).2.2 (by decide) (by decide)).2]
    decide⟩

/-- C14: in `getAvailableTools` an id reads as the descriptor `customTools` holds under it (the
last one, should the persisted text repeat the id), and otherwise as the built-in descriptor;
so its key set is the union of the built-in and the custom ids, and a custom entry overrides the
built-in of the same id.  The table `AI_TOOLS` is a constant that the function only reads. -/
theorem getAvailableTools_merges (cfg : ToolConfig) (k : String) :
    lookupField k (getAvailableTools cfg) =
      (match lookupField k cfg.customTools.reverse with
        | some v => some v
        | none => lookupField k AI_TOOLS) ∧
    (k ∈ (getAvailableTools cfg).map Prod.fst ↔
      k ∈ AI_TOOLS.map Prod.fst ∨ k ∈ cfg.customTools.map Prod.fst) ∧
    (k ∉ cfg.customTools.map Prod.fst →
      lookupField k (getAvailableTools cfg) = lookupField k AI_TOOLS) ∧
    ((cfg.customTools.map Prod.fst).Nodup → ∀ v, (k, v) ∈ cfg.customTools →
      lookupField k (getAvailableTools cfg) = some v) := by
  have hobj : lookupField k (spreadInto [] cfg.customTools) =
      lookupField k cfg.customTools.reverse := by
    rw [lookupField_spreadInto]
    cases lookupField k cfg.customTools.reverse <;> rfl
  have hmain : lookupField k (getAvailableTools cfg) =
      (match lookupField k cfg.customTools.reverse with
        | some v => some v
        | none => lookupField k AI_TOOLS) := by
    unfold getAvailableTools
    rw [lookupField_spreadInto, lookupField_reverse k _
      (keys_spreadInto_nodup cfg.customTools [] (by simp)), hobj]
  have hrev : (lookupField k cfg.customTools.reverse).isSome = true ↔
      k ∈ cfg.customTools.map Prod.fst := by
    rw [← mem_keys_iff, List.map_reverse, List.mem_reverse]
  refine ⟨hmain, ?_, ?_, ?_⟩
  · rw [mem_keys_iff, hmain, mem_keys_iff k AI_TOOLS, ← hrev]
    cases lookupField k cfg.customTools.reverse with
    | some v => simp
    | none => simp
  · intro hk
    rw [hmain]
    cases hl : lookupField k cfg.customTools.reverse with
    | none => rfl
    | some v => exact absurd (hrev.mp (by rw [hl]; rfl)) hk
  · intro hnd v hmem
    rw [hmain, lookupField_reverse k _ hnd, lookupField_of_mem k v _ hnd hmem]

/-- Run of C14: a custom `aider` joins the two built-ins. -/
theorem getAvailableTools_merges_witness :
    (aiderConfig.customTools.map Prod.fst).Nodup ∧
    lookupField "aider" (getAvailableTools aiderConfig) = some aiderTool ∧
    lookupField "codex" (getAvailableTools aiderConfig) = lookupField "codex" AI_TOOLS :=
  ⟨by decide,
   (getAvailableTools_merges aiderConfig "aider").2.2.2 (by decide) aiderTool (by decide),
   (getAvailableTools_merges aiderConfig "codex").2.2.1 (by decide)⟩

/-- C15 as stated fails: with the config path occupied by a directory the write of the new
configuration fails (`EISDIR`, logged by `saveConfig`), and `setActiveTool` still returns true
and sends the change notification; nothing has been saved. -/
theorem setActiveTool_notifies_unsaved :
    (writeFileSync (posixPath "/") 18 blockedStore "/u/ai-tool-config.json"
      (sampleStringifyConfig ⟨"codex", []⟩) 438).isOk = false ∧
    (setActiveTool (posixEnv none) "codex" liveManager blockedStore).1 = true ∧
    (setActiveTool (posixEnv none) "codex" liveManager blockedStore).2.1.effects =
      [.logged "Error saving AI tool config:" (.sys "EISDIR"), .sent (getProp AI_TOOLS "codex")] ∧
    (setActiveTool (posixEnv none) "codex" liveManager blockedStore).2.2 "/u/ai-tool-config.json" =
      some .dir := by
  decide

/-- C15, amended: a successful `setActiveTool(id)` sends a change notification only when the
window is open, then exactly one, carrying the newly active descriptor, and only after
`saveConfig` has run.  If the write of the configuration succeeds, the effects of the call are
the write, then the notification, and the persisted file holds the new configuration when the
call is over.  If the write fails, the effects are the logged error, then the notification all
the same, and the filesystem is left as it was. -/
theorem setActiveTool_saves_then_notifies (env : Env) (toolId : String) (m : Manager) (fs : FS)
    (t : Tool) (hreg : lookupField toolId (getAvailableTools m.config) = some t) :
    (setActiveTool env toolId m fs).1 = true ∧
    (setActiveTool env toolId m fs).2.1.config = { m.config with activeTool := toolId } ∧
    (setActiveTool env toolId m fs).2.1.sent =
      m.sent ++ (if m.mainWindow = .live then [.own t] else []) ∧
    (∀ p fs1, m.configPath = some p →
      writeFileSync env.path env.umask fs p
        (env.stringifyConfig { m.config with activeTool := toolId }) 438 = .ok fs1 →
      (setActiveTool env toolId m fs).2.1.effects = m.effects ++
        [.wrote p (env.stringifyConfig { m.config with activeTool := toolId })] ++
        (if m.mainWindow = .live then [.sent (.own t)] else []) ∧
      (setActiveTool env toolId m fs).2.2 = fs1 ∧
      readFileSync env.path (setActiveTool env toolId m fs).2.2 p =
        .ok (env.stringifyConfig { m.config with activeTool := toolId })) ∧
    (∀ p e, m.configPath = some p →
      writeFileSync env.path env.umask fs p
        (env.stringifyConfig { m.config with activeTool := toolId }) 438 = .error e →
      (setActiveTool env toolId m fs).2.1.effects = m.effects ++
        [.logged "Error saving AI tool config:" e] ++
        (if m.mainWindow = .live then [.sent (.own t)] else []) ∧
      (setActiveTool env toolId m fs).2.2 = fs) ∧
    (m.configPath = none →
      (setActiveTool env toolId m fs).2.1.effects = m.effects ++
        [.logged "Error saving AI tool config:" (.sys "ERR_INVALID_ARG_TYPE")] ++
        (if m.mainWindow = .live then [.sent (.own t)] else []) ∧
      (setActiveTool env toolId m fs).2.2 = fs) := by
  have hp : getProp (getAvailableTools m.config) toolId = .own t := by simp [getProp, hreg]
  have hact : getActiveTool { m.config with activeTool := toolId } = .own t := by
    have hreg2 : lookupField toolId
        (getAvailableTools { m.config with activeTool := toolId }) = some t := hreg
    simp [getActiveTool, getProp, hreg2, JsProp.orElse, JsProp.truthy]
  rcases m with ⟨cfg0, cpath, win, eff⟩
  simp only at hreg hp hact
  have hsent : ∀ (e : Effect) (m1 : Manager),
      m1.effects = eff ++ [e] ++ (if win = .live then [.sent (.own t)] else []) →
      (∀ x, e ≠ .sent x) →
      m1.sent = Manager.sent ⟨cfg0, cpath, win, eff⟩ ++ (if win = .live then [.own t] else []) := by
    intro e m1 h1 h2
    unfold Manager.sent
    rw [h1, List.filterMap_append, List.filterMap_append]
    have he : [e].filterMap (fun e =>
        match e with
        | .sent payload => some payload
        | _ => none) = [] := by
      cases e with
      | sent x => exact absurd rfl (h2 x)
      | wrote a b => rfl
      | logged a b => rfl
    rw [he, List.append_nil]
    congr 1
    split <;> rfl
  -- the run, given what `saveConfig` does
  have hrun : ∀ (e : Effect) (fs0 : FS),
      saveConfig env ⟨⟨toolId, cfg0.customTools⟩, cpath, win, eff⟩ fs =
        (⟨⟨toolId, cfg0.customTools⟩, cpath, win, eff ++ [e]⟩, fs0) →
      setActiveTool env toolId ⟨cfg0, cpath, win, eff⟩ fs =
        (true, ⟨⟨toolId, cfg0.customTools⟩, cpath, win,
          eff ++ [e] ++ (if win = .live then [.sent (.own t)] else [])⟩, fs0) := by
    intro e fs0 hs
    by_cases hwin : win = .live
    · subst hwin
      simp [setActiveTool, hp, JsProp.truthy, hs, hact]
    · simp [setActiveTool, hp, JsProp.truthy, hs, hwin]
  cases cpath with
  | none =>
    have hr := hrun (.logged "Error saving AI tool config:" (.sys "ERR_INVALID_ARG_TYPE")) fs rfl
    rw [hr]
    refine ⟨rfl, rfl, hsent _ _ rfl (by intro x; simp), ?_, ?_, ?_⟩
    · intro p fs1 hpath; cases hpath
    · intro p e hpath; cases hpath
    · intro _; exact ⟨rfl, rfl⟩
  | some p0 =>
    cases hw0 : writeFileSync env.path env.umask fs p0
        (env.stringifyConfig ⟨toolId, cfg0.customTools⟩) 438 with
    | ok fs0 =>
      have hr := hrun (.wrote p0 (env.stringifyConfig ⟨toolId, cfg0.customTools⟩)) fs0
        (by simp [saveConfig, hw0])
      rw [hr]
      refine ⟨rfl, rfl, hsent _ _ rfl (by intro x; simp), ?_, ?_, ?_⟩
      · intro p fs1 hpath hw
        simp only [Option.some.injEq] at hpath
        subst hpath
        rw [hw0] at hw
        simp only [Except.ok.injEq] at hw
        subst hw
        exact ⟨rfl, rfl, readFileSync_after_write hw0⟩
      · intro p e hpath hw
        simp only [Option.some.injEq] at hpath
        subst hpath
        rw [hw0] at hw
        cases hw
      · intro hnone; cases hnone
    | error e0 =>
      have hr := hrun (.logged "Error saving AI tool config:" e0) fs (by simp [saveConfig, hw0])
      rw [hr]
      refine ⟨rfl, rfl, hsent _ _ rfl (by intro x; simp), ?_, ?_, ?_⟩
      · intro p fs1 hpath hw
        simp only [Option.some.injEq] at hpath
        subst hpath
        rw [hw0] at hw
        cases hw
      · intro p e hpath hw
        simp only [Option.some.injEq] at hpath
        subst hpath
        rw [hw0] at hw
        simp only [Except.error.injEq] at hw
        subst hw
        exact ⟨rfl, rfl⟩
      · intro hnone; cases hnone

/-- Run of the amended C15: choosing `codex` with an open window and a writable store. -/
theorem setActiveTool_saves_then_notifies_witness :
    lookupField "codex" (getAvailableTools liveManager.config) = lookupField "codex" AI_TOOLS ∧
    (setActiveTool (posixEnv none) "codex" liveManager userData).2.1.effects =
      [.wrote "/u/ai-tool-config.json" (sampleStringifyConfig ⟨"codex", []⟩),
       .sent (getProp AI_TOOLS "codex")] ∧
    readFileSync (posixPath "/") (setActiveTool (posixEnv none) "codex" liveManager userData).2.2
      "/u/ai-tool-config.json" = .ok (sampleStringifyConfig ⟨"codex", []⟩) :=
  ⟨by decide,
   ((setActiveTool_saves_then_notifies (posixEnv none) "codex" liveManager userData
      ⟨"codex", "Codex CLI", "codex", "OpenAI Codex CLI",
        [("review", ⟨"/review", "Review"⟩), ("model", ⟨"/model", "Switch Model"⟩),
         ("permissions", ⟨"/permissions", "Permissions"⟩), ("help", ⟨"/help", "Help"⟩)],
        "Codex Commands", false, true, some "codex"⟩ (by decide)).2.2.2.1
      "/u/ai-tool-config.json"
      (userData.set "/u/ai-tool-config.json"
        (some (.file (sampleStringifyConfig ⟨"codex", []⟩) 420)))
      rfl rfl).1.trans (by decide),
   by decide⟩

/-- C16, evaluated where it fails: `CLAUDE.md` holds a symbolic link whose target is gone and
the platform creates links; `createSymlinkSafe` returns false and the old link, with its old
target, is still in place. -/
theorem createSymlinkSafe_keeps_dangling_link :
    danglingLinkProject "/p/CLAUDE.md" = some (.symlink "gone.md") ∧
    existsSync (posixPath "/") danglingLinkProject "/p/CLAUDE.md" = false ∧
    (createSymlinkSafe (posixEnv none) "AGENTS.md" "/p/CLAUDE.md" danglingLinkProject).1 = false ∧
    (createSymlinkSafe (posixEnv none) "AGENTS.md" "/p/CLAUDE.md" danglingLinkProject).2
      "/p/CLAUDE.md" = some (.symlink "gone.md") := by
  decide

/-- C17: `getFrameConfig` is a total function of the filesystem that returns null (`none`) when
the config file does not exist or cannot be read, null when its content is not well-formed
JSON, and the parsed content otherwise; it returns no filesystem, so it changes none. -/
theorem getFrameConfig_reads_or_null (env : Env) (fs : FS) (projectPath : String) :
    (existsSync env.path fs (configFilePath env projectPath) = false →
      getFrameConfig env fs projectPath = none) ∧
    (∀ e, readFileSync env.path fs (configFilePath env projectPath) = .error e →
      getFrameConfig env fs projectPath = none) ∧
    (∀ data, readFileSync env.path fs (configFilePath env projectPath) = .ok data →
      env.jsonParse data = none → getFrameConfig env fs projectPath = none) ∧
    (∀ data j, readFileSync env.path fs (configFilePath env projectPath) = .ok data →
      env.jsonParse data = some j → getFrameConfig env fs projectPath = some j) := by
  refine ⟨?_, ?_, ?_, ?_⟩
  · intro h
    obtain ⟨e, he⟩ := readFileSync_of_not_exists h
    simp [getFrameConfig, he]
  · intro e he
    simp [getFrameConfig, he]
  · intro data hd hp
    simp [getFrameConfig, hd, hp]
  · intro data j hd hp
    simp [getFrameConfig, hd, hp]

/-- Run of C17: a well-formed config is parsed, an edited one that is no JSON gives null, and
so does a missing one. -/
theorem getFrameConfig_reads_or_null_witness :
    getFrameConfig parsingEnv demoProject "/p" = some (.obj [("name", .str "Demo")]) ∧
    getFrameConfig parsingEnv editedProject "/p" = none ∧
    getFrameConfig parsingEnv agentsOnly "/p" = none :=
  ⟨(getFrameConfig_reads_or_null parsingEnv demoProject "/p").2.2.2 demoConfigText _
      (by decide) (by simp [parsingEnv, sampleParse]),
   (getFrameConfig_reads_or_null parsingEnv editedProject "/p").2.2.1 "user config"
      (by decide) (by simp [parsingEnv, sampleParse, demoConfigText]),
   (getFrameConfig_reads_or_null parsingEnv agentsOnly "/p").1 (by decide)⟩

/-- C11, evaluated where it fails: on a project where only the hidden directory and its config
file exist, `upgradeFrameProject` creates the bin directory and then throws a `TypeError` at its
call of `templates.getWrapperScriptTemplate`; it does not return, and afterwards none of the five
root files exists, nor `CLAUDE.md`, nor the wrapper.  With the wrapper in place and `AGENTS.md`
missing it throws in the same way at its call of `templates.getAgentsTemplate`. -/
theorem upgrade_throws_on_missing_files :
    isFrameProject (posixEnv none) configOnlyProject "/p" = true ∧
    (upgradeFrameProject (posixEnv none) sampleTemplates defaultToolConfig "/p"
      configOnlyProject).1 = .error (notAFunction "getWrapperScriptTemplate") ∧
    ["/p/AGENTS.md", "/p/STRUCTURE.json", "/p/PROJECT_NOTES.md", "/p/tasks.json",
      "/p/QUICKSTART.md", "/p/CLAUDE.md", "/p/.frame/bin/codex", "/p/.frame/bin"].map
      (existsSync (posixPath "/")
        (upgradeFrameProject (posixEnv none) sampleTemplates defaultToolConfig "/p"
          configOnlyProject).2) =
      [false, false, false, false, false, false, false, true] ∧
    isFrameProject (posixEnv none) noAgentsProject "/p" = true ∧
    (upgradeFrameProject (posixEnv none) sampleTemplates defaultToolConfig "/p"
      noAgentsProject).1 = .error (notAFunction "getAgentsTemplate") ∧
    ["/p/AGENTS.md", "/p/STRUCTURE.json", "/p/PROJECT_NOTES.md", "/p/tasks.json",
      "/p/QUICKSTART.md", "/p/CLAUDE.md"].map
      (existsSync (posixPath "/")
        (upgradeFrameProject (posixEnv none) sampleTemplates defaultToolConfig "/p"
          noAgentsProject).2) =
      [false, false, false, false, false, false] := by
  decide

/-- C12, evaluated where it fails: on a fresh project directory, with the built-in registry,
`initializeFrameProject` creates the hidden directory, writes the config file and then throws a
`TypeError` at its call of `templates.getAgentsTemplate`; it returns no config object, the
workspace is not updated, and afterwards none of the five root files exists, nor `CLAUDE.md`,
nor the bin directory, nor the wrapper of `codex`. -/
theorem initialize_throws_on_fresh_project :
    ["/p/.frame", "/p/.frame/config.json", "/p/AGENTS.md", "/p/CLAUDE.md"].map
      (existsSync (posixPath "/") freshDir) = [false, false, false, false] ∧
    (initializeFrameProject (posixEnv none) sampleTemplates defaultToolConfig "/p" (some "Demo")
      freshDir).result = .error (notAFunction "getAgentsTemplate") ∧
    (initializeFrameProject (posixEnv none) sampleTemplates defaultToolConfig "/p" (some "Demo")
      freshDir).frameStatus = [] ∧
    readFileSync (posixPath "/")
      (initializeFrameProject (posixEnv none) sampleTemplates defaultToolConfig "/p" (some "Demo")
        freshDir).fs "/p/.frame/config.json" = .ok demoConfigText ∧
    ["/p/AGENTS.md", "/p/STRUCTURE.json", "/p/PROJECT_NOTES.md", "/p/tasks.json",
      "/p/QUICKSTART.md", "/p/CLAUDE.md", "/p/.frame/bin", "/p/.frame/bin/codex"].map
      (existsSync (posixPath "/")
        (initializeFrameProject (posixEnv none) sampleTemplates defaultToolConfig "/p"
          (some "Demo") freshDir).fs) =
      [false, false, false, false, false, false, false, false] :=
  ⟨by decide, rfl, by decide, by decide, by decide⟩

/-- C18 as stated fails, in two ways.  For the empty project path (the project in the working
directory) `upgradeFrameProject` returns normally and the wrapper of `codex` exists where the
scaffolder looks for it, yet `getExecutableCommand` returns the native command.  And when the
registry holds the tool with the id `aider` under the key `my-aider`, the upgrade of `/p`
returns normally, the tool needs a wrapper and has one, yet `getExecutableCommand` called with
the tool's id returns the native command of `claude`. -/
theorem getExecutableCommand_misses_wrapper :
    (upgradeFrameProject (posixEnv none) sampleTemplates defaultToolConfig ""
      relativeProject).1.isOk = true ∧
    (getToolsRequiringWrapper defaultToolConfig).map Tool.id = ["codex"] ∧
    existsSync (posixPath "/")
      (upgradeFrameProject (posixEnv none) sampleTemplates defaultToolConfig "" relativeProject).2
      ((posixPath "/").join ["", ".frame", "bin", "codex"]) = true ∧
    getExecutableCommand (posixEnv none) defaultToolConfig
      (upgradeFrameProject (posixEnv none) sampleTemplates defaultToolConfig "" relativeProject).2
      "codex" (some "") = some "codex" ∧
    (upgradeFrameProject (posixEnv none) sampleTemplates renamedKeyConfig "/p"
      wrappedProject).1.isOk = true ∧
    aiderTool ∈ getToolsRequiringWrapper renamedKeyConfig ∧
    aiderTool.id = "aider" ∧
    existsSync (posixPath "/")
      (upgradeFrameProject (posixEnv none) sampleTemplates renamedKeyConfig "/p" wrappedProject).2
      "/p/.frame/bin/aider" = true ∧
    getExecutableCommand (posixEnv none) renamedKeyConfig
      (upgradeFrameProject (posixEnv none) sampleTemplates renamedKeyConfig "/p" wrappedProject).2
      aiderTool.id (some "/p") = some "claude" := by
  decide

/-- C18, amended: for every non-empty project path and every registry, after
`upgradeFrameProject` or `initializeFrameProject` has returned normally, every tool that needs a
wrapper and that the registry holds under its own id has a wrapper file at
`<projectPath>/<FRAME_DIR>/<FRAME_BIN_DIR>/<wrapperName or command>`, and
`getExecutableCommand` called with the tool's id returns that path, provided `path.join` of the
bin directory path with the wrapper name is the same path as the four-part join, as it is for
Node's `path.join`. -/
theorem getExecutableCommand_after_scaffold (env : Env) (tpl : Templates) (cfg : ToolConfig)
    (projectPath : String) (fs fs1 : FS) (t : Tool) (hpath : projectPath ≠ "")
    (hrun : (∃ r, upgradeFrameProject env tpl cfg projectPath fs = (.ok r, fs1)) ∨
      (∃ name c, (initializeFrameProject env tpl cfg projectPath name fs).result = .ok c ∧
        (initializeFrameProject env tpl cfg projectPath name fs).fs = fs1))
    (hown : lookupField t.id (getAvailableTools cfg) = some t)
    (hneeds : t.needsWrapper = true)
    (hjoin : env.path.join [env.path.join [projectPath, env.consts.FRAME_DIR,
        env.consts.FRAME_BIN_DIR], wrapperFileName t] =
      env.path.join [projectPath, env.consts.FRAME_DIR, env.consts.FRAME_BIN_DIR,
        wrapperFileName t]) :
    existsSync env.path fs1 (env.path.join [projectPath, env.consts.FRAME_DIR,
      env.consts.FRAME_BIN_DIR, wrapperFileName t]) = true ∧
    getExecutableCommand env cfg fs1 t.id (some projectPath) =
      some (env.path.join [projectPath, env.consts.FRAME_DIR, env.consts.FRAME_BIN_DIR,
        wrapperFileName t]) := by
  have hex : existsSync env.path fs1 (env.path.join [projectPath, env.consts.FRAME_DIR,
      env.consts.FRAME_BIN_DIR, wrapperFileName t]) = true := by
    rcases hrun with ⟨r, hr⟩ | ⟨name, c, hres, _⟩
    · have h := (upgradeFrameProject_ok_exists env tpl cfg projectPath fs fs1 r hr).1 t
        (mem_getToolsRequiringWrapper cfg t.id t hown hneeds)
      unfold wrapperPathOf binDirPath at h
      rw [hjoin] at h
      exact h
    · obtain ⟨e, he, _⟩ := initializeFrameProject_throws env tpl cfg projectPath name fs
      rw [he] at hres
      cases hres
  exact ⟨hex, getExecutableCommand_of_wrapper env cfg fs1 t.id projectPath t hpath hown hneeds hex⟩

/-- Run of the amended C18: after the upgrade of `/p`, `codex` resolves to its wrapper. -/
theorem getExecutableCommand_after_scaffold_witness :
    (upgradeFrameProject (posixEnv none) sampleTemplates defaultToolConfig "/p" editedProject).1 =
      .ok ⟨["STRUCTURE.json", "PROJECT_NOTES.md", "tasks.json", "QUICKSTART.md",
            "CLAUDE.md (symlink)"], [".frame/bin/codex", "AGENTS.md"]⟩ ∧
    getExecutableCommand (posixEnv none) defaultToolConfig
      (upgradeFrameProject (posixEnv none) sampleTemplates defaultToolConfig "/p" editedProject).2
      "codex" (some "/p") = some "/p/.frame/bin/codex" :=
  ⟨by decide,
   ((getExecutableCommand_after_scaffold (posixEnv none) sampleTemplates defaultToolConfig "/p"
      editedProject
      (upgradeFrameProject (posixEnv none) sampleTemplates defaultToolConfig "/p" editedProject).2
      ⟨"codex", "Codex CLI", "codex", "OpenAI Codex CLI",
        [("review", ⟨"/review", "Review"⟩), ("model", ⟨"/model", "Switch Model"⟩),
         ("permissions", ⟨"/permissions", "Permissions"⟩), ("help", ⟨"/help", "Help"⟩)],
        "Codex Commands", false, true, some "codex"⟩
      (by decide)
      (Or.inl ⟨⟨["STRUCTURE.json", "PROJECT_NOTES.md", "tasks.json", "QUICKSTART.md",
            "CLAUDE.md (symlink)"], [".frame/bin/codex", "AGENTS.md"]⟩,
          Prod.ext (by decide) rfl⟩)
      (by decide) rfl (by decide)).2).trans (by decide)⟩

end Frame
